import Mathlib

/-!
# TruAI verification pipeline: a shallow embedding

This file embeds the core of the TruAI verification pipeline in Lean 4 and
proves properties of its job/result state machine, caches, retry policy,
worker-pool fetcher and publish/subscribe fan-out.

The embedding follows the TypeScript source:
* `lib/storage.ts` — `VerificationStorage` (jobs, results, pub/sub);
* `lib/cache.ts` — LRU caches, `normalizeUrl`, `generateGPTCacheKey`;
* `lib/openai.ts` — `verifyWithGPT`, `verifyWithRetry`;
* `lib/scraping.ts` — `scrapeUrl`, `scrapeUrls` (worker pool);
* `lib/verification.ts` — `verifyParagraph`, `cancelVerification`.

JavaScript `Map`s become association lists preserving insertion order,
in-place mutation becomes explicit state passing, `new Date()` becomes an
explicit `now : Nat` argument, listener invocations become an explicit
event trace, and external collaborators (network fetch, URL parsing, the
language model) become oracle parameters.
-/

namespace TruAI

/-! ## Data model (`lib/types.ts`) -/

/-- `Confidence = 'high' | 'medium' | 'low'`. -/
inductive Confidence
  | high
  | medium
  | low
deriving DecidableEq, Repr

/-- Job status: `'pending' | 'in_progress' | 'completed' | 'failed'`. -/
inductive JobStatus
  | pending
  | in_progress
  | completed
  | failed
deriving DecidableEq, Repr

/-- Source credibility enum. -/
inductive Credibility
  | academic
  | official
  | news
  | blog
  | unknown
deriving DecidableEq, Repr

/-- `Paragraph` from `lib/types.ts` / the parser (`isHeading` is optional in
TypeScript; `undefined` is falsy, so it is modelled as a `Bool`). -/
structure Paragraph where
  id : Int
  order : Int
  text : String
  links : List String
  isHeading : Bool := false
deriving DecidableEq, Repr

/-- `LinkDigest`. -/
structure LinkDigest where
  url : String
  title : String
  summary : String
deriving DecidableEq, Repr

/-- `VerificationResult`. -/
structure VerificationResult where
  doc_id : String
  paragraph_id : Int
  confidence : Confidence
  summary_of_sources : String
  reasoning : String
  link_digests : List LinkDigest
deriving DecidableEq, Repr

/-- `SourceContent`. -/
structure SourceContent where
  url : String
  title : String
  content : String
  credibility : Credibility
  error : Option String := none
deriving DecidableEq, Repr

/-- `VerificationJob`; `created_at`/`updated_at` are `Date`s in the source,
modelled as abstract `Nat` timestamps supplied by the caller. -/
structure VerificationJob where
  doc_id : String
  paragraph : Paragraph
  status : JobStatus
  result : Option VerificationResult := none
  error : Option String := none
  created_at : Nat
  updated_at : Nat
deriving DecidableEq, Repr

/-- `GPTVerificationInput`. -/
structure GPTVerificationInput where
  paragraph_text : String
  paragraph_links : List String
  sources : List SourceContent
deriving DecidableEq, Repr

/-- `GPTVerificationOutput`. -/
structure GPTVerificationOutput where
  confidence : Confidence
  summary_of_sources : String
  reasoning : String
deriving DecidableEq, Repr

/-! ## Association-list maps

JavaScript `Map` preserves insertion order; `set` on an existing key updates
the value in place, otherwise appends. -/

/-- Replace the first element satisfying `p` by its image under `f`
(in-place mutation of the first `Array.prototype.find` hit). -/
def updateFirst (p : α → Bool) (f : α → α) : List α → List α
  | [] => []
  | a :: rest => if p a then f a :: rest else a :: updateFirst p f rest

/-- `Map.get`. -/
def mapGet (m : List (String × α)) (k : String) : Option α :=
  (m.find? (fun e => e.1 == k)).map (·.2)

/-- `Map.set`: update in place if the key exists, else append. -/
def mapSet (m : List (String × α)) (k : String) (v : α) : List (String × α) :=
  if m.any (fun e => e.1 == k) then
    updateFirst (fun e => e.1 == k) (fun e => (e.1, v)) m
  else
    m ++ [(k, v)]

/-- `Map.delete`. -/
def mapDelete (m : List (String × α)) (k : String) : List (String × α) :=
  m.filter (fun e => ¬ e.1 == k)

/-! ## The Job Store (`VerificationStorage`, `lib/storage.ts`)

Listener invocations are modelled as an event trace: each operation returns
the list of notifications it fires, in order. (Listener exceptions are
caught per listener in the source, so the set of notifications fired is
exactly the trace below.) -/

/-- One pub/sub notification. -/
inductive Event
  | update (result : VerificationResult)
  | complete (docId : String)
  | error (docId : String) (paragraphId : Int) (msg : String)
deriving DecidableEq, Repr

/-- The `VerificationStorage` state: `jobs` and `results`, both keyed by
`doc_id`. -/
structure Storage where
  jobs : List (String × List VerificationJob)
  results : List (String × List VerificationResult)
deriving DecidableEq, Repr

/-- The freshly constructed singleton store. -/
def Storage.empty : Storage := ⟨[], []⟩

/-- `getJobs(docId)`: `this.jobs.get(docId) || []`. -/
def getJobs (s : Storage) (docId : String) : List VerificationJob :=
  (mapGet s.jobs docId).getD []

/-- `getJob(docId, paragraphId)`: first job whose paragraph has the id. -/
def getJob (s : Storage) (docId : String) (paragraphId : Int) :
    Option VerificationJob :=
  (getJobs s docId).find? (fun j => j.paragraph.id == paragraphId)

/-- `getResults(docId)`. -/
def getResults (s : Storage) (docId : String) : List VerificationResult :=
  (mapGet s.results docId).getD []

/-- `getResult(docId, paragraphId)`. -/
def getResult (s : Storage) (docId : String) (paragraphId : Int) :
    Option VerificationResult :=
  (getResults s docId).find? (fun r => r.paragraph_id == paragraphId)

/-- `createJobs(docId, paragraphs)`: one fresh `pending` job per paragraph;
replaces any prior job list for the document. -/
def createJobs (s : Storage) (docId : String) (paragraphs : List Paragraph)
    (now : Nat) : Storage × List VerificationJob :=
  let jobs := paragraphs.map (fun p =>
    { doc_id := docId, paragraph := p, status := .pending,
      created_at := now, updated_at := now : VerificationJob })
  ({ s with jobs := mapSet s.jobs docId jobs }, jobs)

/-- `updateJobStatus(docId, paragraphId, status)`: mutates the first job
with the given paragraph id, unconditionally overwriting its status. -/
def updateJobStatus (s : Storage) (docId : String) (paragraphId : Int)
    (status : JobStatus) (now : Nat) : Storage :=
  match mapGet s.jobs docId with
  | none => s
  | some jobs =>
      let newJobs := updateFirst (fun j => j.paragraph.id == paragraphId)
        (fun j => { j with status := status, updated_at := now }) jobs
      { s with jobs := mapSet s.jobs docId newJobs }

/-- `'completed' || 'failed'`. -/
def isTerminal : JobStatus → Bool
  | .completed => true
  | .failed => true
  | _ => false

/-- The result-list upsert inside `storeResult`: replace by `findIndex` on
`paragraph_id`, else push. -/
def upsertResult (results : List VerificationResult)
    (result : VerificationResult) : List VerificationResult :=
  match results.findIdx? (fun r => r.paragraph_id == result.paragraph_id) with
  | some i => results.set i result
  | none => results ++ [result]

/-- `storeResult(result)`: upsert into the per-document result list, flip
the job to `completed`, notify update listeners, then fire completion if
every job of the document is terminal and the document has jobs. -/
def storeResult (s : Storage) (result : VerificationResult) (now : Nat) :
    Storage × List Event :=
  let results := (mapGet s.results result.doc_id).getD []
  let newResults := mapSet s.results result.doc_id (upsertResult results result)
  let s1 := { s with results := newResults }
  let s2 := updateJobStatus s1 result.doc_id result.paragraph_id .completed now
  let jobs := getJobs s2 result.doc_id
  let completeEvents :=
    if (jobs.all fun job => isTerminal job.status) ∧ 0 < jobs.length then
      [Event.complete result.doc_id]
    else []
  (s2, Event.update result :: completeEvents)

/-- `storeError(docId, paragraphId, error)`: flip the job to `failed` and
record the message, notify error listeners, then run the completion check. -/
def storeError (s : Storage) (docId : String) (paragraphId : Int)
    (msg : String) (now : Nat) : Storage × List Event :=
  let s1 :=
    match getJob s docId paragraphId with
    | none => s
    | some _ =>
        let newJobs := updateFirst (fun j => j.paragraph.id == paragraphId)
          (fun j => { j with status := .failed, error := some msg, updated_at := now })
          (getJobs s docId)
        { s with jobs := mapSet s.jobs docId newJobs }
  let jobs := getJobs s1 docId
  let completeEvents :=
    if (jobs.all fun job => isTerminal job.status) ∧ 0 < jobs.length then
      [Event.complete docId]
    else []
  (s1, Event.error docId paragraphId msg :: completeEvents)

/-! ### Sequences of terminal store operations -/

/-- A terminal store call: `storeResult` or `storeError`. -/
inductive StoreOp
  | res (result : VerificationResult) (now : Nat)
  | err (docId : String) (paragraphId : Int) (msg : String) (now : Nat)
deriving DecidableEq, Repr

/-- The document an operation targets. -/
def StoreOp.docId : StoreOp → String
  | .res r _ => r.doc_id
  | .err d _ _ _ => d

/-- The paragraph an operation targets. -/
def StoreOp.paragraphId : StoreOp → Int
  | .res r _ => r.paragraph_id
  | .err _ pid _ _ => pid

/-- Apply one store call. -/
def applyOp (s : Storage) : StoreOp → Storage × List Event
  | .res r now => storeResult s r now
  | .err d pid msg now => storeError s d pid msg now

/-- Run a sequence of store calls, concatenating the event traces. -/
def runOps (s : Storage) : List StoreOp → Storage × List Event
  | [] => (s, [])
  | op :: rest =>
      let step := applyOp s op
      let tail := runOps step.1 rest
      (tail.1, step.2 ++ tail.2)

/-- Number of completion notifications for a document in a trace. -/
def completeCount (docId : String) (events : List Event) : Nat :=
  events.count (Event.complete docId)

/-! ## SHA-256 (`createHash('sha256')` from `node:crypto`)

A complete executable SHA-256 over the UTF-8 bytes of a string, used by
`generateGPTCacheKey`. Words are `Nat`s reduced mod `2^32`. -/

namespace SHA256

/-- UTF-8 encoding of a Unicode code point. -/
def utf8EncodeChar (c : Nat) : List Nat :=
  if c < 0x80 then [c]
  else if c < 0x800 then
    [0xC0 ||| (c >>> 6), 0x80 ||| (c &&& 0x3F)]
  else if c < 0x10000 then
    [0xE0 ||| (c >>> 12), 0x80 ||| ((c >>> 6) &&& 0x3F), 0x80 ||| (c &&& 0x3F)]
  else
    [0xF0 ||| (c >>> 18), 0x80 ||| ((c >>> 12) &&& 0x3F),
     0x80 ||| ((c >>> 6) &&& 0x3F), 0x80 ||| (c &&& 0x3F)]

/-- UTF-8 bytes of a string. -/
def utf8Bytes (s : String) : List Nat :=
  s.data.flatMap (fun c => utf8EncodeChar c.toNat)

/-- `2^32`. -/
def w32 : Nat := 4294967296

/-- 32-bit rotate right. -/
def rotr (n x : Nat) : Nat := ((x >>> n) ||| (x <<< (32 - n))) % w32

/-- Logical shift right. -/
def shr (n x : Nat) : Nat := x >>> n

/-- Three-way xor. -/
def bxor3 (a b c : Nat) : Nat := a ^^^ b ^^^ c

/-- σ₀ -/
def smallSigma0 (x : Nat) : Nat := bxor3 (rotr 7 x) (rotr 18 x) (shr 3 x)
/-- σ₁ -/
def smallSigma1 (x : Nat) : Nat := bxor3 (rotr 17 x) (rotr 19 x) (shr 10 x)
/-- Σ₀ -/
def bigSigma0 (x : Nat) : Nat := bxor3 (rotr 2 x) (rotr 13 x) (rotr 22 x)
/-- Σ₁ -/
def bigSigma1 (x : Nat) : Nat := bxor3 (rotr 6 x) (rotr 11 x) (rotr 25 x)

/-- Choice function. -/
def ch (x y z : Nat) : Nat := (x &&& y) ^^^ ((x ^^^ 0xFFFFFFFF) &&& z)
/-- Majority function. -/
def maj (x y z : Nat) : Nat := (x &&& y) ^^^ (x &&& z) ^^^ (y &&& z)

/-- Round constants. -/
def K : List Nat :=
  [1116352408, 1899447441, 3049323471, 3921009573, 961987163,
   1508970993, 2453635748, 2870763221, 3624381080, 310598401,
   607225278, 1426881987, 1925078388, 2162078206, 2614888103,
   3248222580, 3835390401, 4022224774, 264347078, 604807628,
   770255983, 1249150122, 1555081692, 1996064986, 2554220882,
   2821834349, 2952996808, 3210313671, 3336571891, 3584528711,
   113926993, 338241895, 666307205, 773529912, 1294757372,
   1396182291, 1695183700, 1986661051, 2177026350, 2456956037,
   2730485921, 2820302411, 3259730800, 3345764771, 3516065817,
   3600352804, 4094571909, 275423344, 430227734, 506948616,
   659060556, 883997877, 958139571, 1322822218, 1537002063,
   1747873779, 1955562222, 2024104815, 2227730452, 2361852424,
   2428436474, 2756734187, 3204031479, 3329325298]

/-- Initial hash state. -/
def H0 : List Nat :=
  [1779033703, 3144134277, 1013904242, 2773480762,
   1359893119, 2600822924, 528734635, 1541459225]

/-- Message padding: append `0x80`, zero bytes, and the 64-bit bit length. -/
def pad (msg : List Nat) : List Nat :=
  let len := msg.length
  let bitLen := len * 8
  let zeroCount := (55 + 64 - len % 64) % 64
  msg ++ [0x80] ++ List.replicate zeroCount 0 ++
    (List.range 8).map (fun i => (bitLen >>> ((7 - i) * 8)) &&& 0xFF)

/-- Split into 64-byte chunks (the padded length is a multiple of 64). -/
def chunks (bs : List Nat) : List (List Nat) :=
  (List.range (bs.length / 64)).map (fun i => (bs.drop (64 * i)).take 64)

/-- 32-bit big-endian words of a chunk. -/
def toWords : List Nat → List Nat
  | b0 :: b1 :: b2 :: b3 :: rest =>
      (b0 <<< 24 ||| b1 <<< 16 ||| b2 <<< 8 ||| b3) :: toWords rest
  | _ => []

/-- Extend the 16 chunk words to the 64-word message schedule. -/
def schedule (ws : List Nat) (i : Nat) : List Nat :=
  if i ≥ 64 then ws
  else
    let w15 := ws.getD (i - 15) 0
    let w2 := ws.getD (i - 2) 0
    let w16 := ws.getD (i - 16) 0
    let w7 := ws.getD (i - 7) 0
    let next := (smallSigma1 w2 + w7 + smallSigma0 w15 + w16) % w32
    schedule (ws ++ [next]) (i + 1)
termination_by 64 - i

/-- The eight working registers. -/
structure Regs where
  a : Nat
  b : Nat
  c : Nat
  d : Nat
  e : Nat
  f : Nat
  g : Nat
  h : Nat

/-- One compression round. -/
def round (ws : List Nat) (i : Nat) (r : Regs) : Regs :=
  let t1 := (r.h + bigSigma1 r.e + ch r.e r.f r.g + K.getD i 0 + ws.getD i 0) % w32
  let t2 := (bigSigma0 r.a + maj r.a r.b r.c) % w32
  { a := (t1 + t2) % w32, b := r.a, c := r.b, d := r.c,
    e := (r.d + t1) % w32, f := r.e, g := r.f, h := r.g }

/-- Compress one chunk into the hash state. -/
def compress (ws : List Nat) (h : List Nat) : List Nat :=
  let r0 : Regs := ⟨h.getD 0 0, h.getD 1 0, h.getD 2 0, h.getD 3 0,
                    h.getD 4 0, h.getD 5 0, h.getD 6 0, h.getD 7 0⟩
  let rF := (List.range 64).foldl (fun r i => round ws i r) r0
  [(h.getD 0 0 + rF.a) % w32, (h.getD 1 0 + rF.b) % w32,
   (h.getD 2 0 + rF.c) % w32, (h.getD 3 0 + rF.d) % w32,
   (h.getD 4 0 + rF.e) % w32, (h.getD 5 0 + rF.f) % w32,
   (h.getD 6 0 + rF.g) % w32, (h.getD 7 0 + rF.h) % w32]

/-- Lowercase hex digit. -/
def hexDigit (n : Nat) : Char :=
  if n < 10 then Char.ofNat (48 + n) else Char.ofNat (87 + n)

/-- Eight hex digits of a 32-bit word. -/
def toHex8 (x : Nat) : List Char :=
  (List.range 8).map (fun i => hexDigit ((x >>> ((7 - i) * 4)) &&& 0xF))

/-- SHA-256 digest of a byte list, as a lowercase hex string. -/
def sha256Bytes (msg : List Nat) : String :=
  let digest := (chunks (pad msg)).foldl
    (fun h chunk => compress (schedule (toWords chunk) 16) h) H0
  ⟨digest.flatMap toHex8⟩

/-- `createHash('sha256').update(s).digest('hex')`. -/
def sha256Hex (s : String) : String := sha256Bytes (utf8Bytes s)

end SHA256

/-! ## Cache layer (`lib/cache.ts`)

The `lru-cache` instances are modelled as bounded association lists ordered
most-recently-used first, with per-entry timestamps for the sliding TTL
(`updateAgeOnGet: true`): a `get` on a live entry refreshes its age and
recency, a `get` on a stale entry deletes it and misses, and a `set`
inserts at the front and evicts beyond `max`. -/

/-- A bounded TTL cache; `entries` is most-recently-used first, each entry
carrying its last-touched timestamp. -/
structure LruCache (α : Type) where
  maxSize : Nat
  ttl : Nat
  entries : List (String × α × Nat)
deriving DecidableEq, Repr

/-- `cache.get(k)`: miss on absent key; delete-and-miss on a stale entry;
on a hit, refresh the entry's age (`updateAgeOnGet`) and recency and
return the value. -/
def lruGet (c : LruCache α) (k : String) (now : Nat) :
    Option α × LruCache α :=
  match c.entries.find? (fun e => e.1 == k) with
  | none => (none, c)
  | some e =>
      if now - e.2.2 > c.ttl then
        (none, { c with entries := c.entries.filter (fun x => ¬ x.1 == k) })
      else
        (some e.2.1,
         { c with entries := (k, e.2.1, now) :: c.entries.filter (fun x => ¬ x.1 == k) })

/-- `cache.set(k, v)`: insert at the front (most recent), replacing any
entry with the same key, evicting least-recently-used entries beyond
`max`. -/
def lruSet (c : LruCache α) (k : String) (v : α) (now : Nat) : LruCache α :=
  { c with entries :=
      ((k, v, now) :: c.entries.filter (fun x => ¬ x.1 == k)).take c.maxSize }

/-- Pure read of the value a `get` at time `now` would return. -/
def lruPeek (c : LruCache α) (k : String) (now : Nat) : Option α :=
  (c.entries.find? (fun e => e.1 == k)).bind
    (fun e => if now - e.2.2 > c.ttl then none else some e.2.1)

/-- The source-content cache: max 1000 entries, TTL 7 days. -/
def sourceContentCacheInit : LruCache SourceContent :=
  { maxSize := 1000, ttl := 1000 * 60 * 60 * 24 * 7, entries := [] }

/-- The GPT verification cache: max 500 entries, TTL 24 hours. -/
def gptVerificationCacheInit : LruCache GPTVerificationOutput :=
  { maxSize := 500, ttl := 1000 * 60 * 60 * 24, entries := [] }

/-- The credibility cache: max 2000 entries, TTL 90 days. -/
def credibilityCacheInit : LruCache Credibility :=
  { maxSize := 2000, ttl := 1000 * 60 * 60 * 24 * 90, entries := [] }

/-- `s.slice(0, n)`: the first `n` characters of a string. (Implemented
over the character list; `String.take` walks `n` byte positions even past
the end of a short string, which makes concrete evaluation needlessly
deep.) -/
def strTake (s : String) (n : Nat) : String := String.mk (s.data.take n)

/-- The `combinedInput` string inside `generateGPTCacheKey`: paragraph
text, the `'|'`-joined sorted link URLs, and the `'|'`-joined first-1000
character snippets of each source content, joined with `'::'`.
`Array.prototype.sort()` compares strings lexicographically; the model
sorts by the lexicographic order on `String`. -/
def combinedInput (input : GPTVerificationInput) : String :=
  let sortedUrls := List.insertionSort (· ≤ ·) input.paragraph_links
  let contentSnippets :=
    String.intercalate "|" (input.sources.map (fun s => strTake s.content 1000))
  String.intercalate "::"
    [input.paragraph_text, String.intercalate "|" sortedUrls, contentSnippets]

/-- `generateGPTCacheKey`: SHA-256 of the combined input. -/
def generateGPTCacheKey (input : GPTVerificationInput) : String :=
  SHA256.sha256Hex (combinedInput input)

/-! ## Verification engine (`lib/openai.ts`) -/

/-- Substring test on character lists (`String.prototype.includes`). -/
def containsSub (hay needle : List Char) : Bool :=
  needle.isPrefixOf hay ||
    match hay with
    | [] => false
    | _ :: t => containsSub t needle

/-- `s.includes(pat)`. -/
def strIncludes (s pat : String) : Bool := containsSub s.data pat.data

/-- A parsed JSON candidate response: the three expected fields, each
possibly missing. -/
structure ParsedResponse where
  confidence : Option String
  summary_of_sources : Option String
  reasoning : Option String
deriving DecidableEq, Repr

/-- JavaScript truthiness of an optional string field (`undefined` and
`''` are falsy). -/
def fieldTruthy : Option String → Bool
  | none => false
  | some s => ¬ s == ""

/-- `['high', 'medium', 'low'].includes(c)`, mapped to the enum. -/
def parseConfidence (s : String) : Option Confidence :=
  if s == "high" then some .high
  else if s == "medium" then some .medium
  else if s == "low" then some .low
  else none

/-- The mock output returned when `OPENAI_API_KEY` is unconfigured. -/
def mockGPTOutput : GPTVerificationOutput :=
  { confidence := .low,
    summary_of_sources :=
      "OpenAI API key not configured - mock verification result",
    reasoning :=
      "Cannot perform verification without OpenAI API key. Please configure OPENAI_API_KEY environment variable." }

/-- The catch-block fallback of `verifyWithGPT` for a thrown `Error`. -/
def gptErrorFallback (msg : String) : GPTVerificationOutput :=
  { confidence := .low,
    summary_of_sources := "Verification failed due to an error",
    reasoning := "Error during verification: " ++ msg }

/-- Result of one `verifyWithGPT` call: the output, the updated cache, and
the log of `cache.set` writes it performed. -/
structure GPTCallOutcome where
  output : GPTVerificationOutput
  cache : LruCache GPTVerificationOutput
  writes : List (String × GPTVerificationOutput)
deriving DecidableEq, Repr

/-- `verifyWithGPT`: check the cache by `generateGPTCacheKey`; on a miss,
return the mock result when the API key is unconfigured (without caching);
otherwise call the model (`modelCall` is the oracle for the network call
plus `JSON.parse`; `.error` covers a provider error, an empty completion
and malformed JSON, all thrown and caught in the source). A response
missing a required field or carrying an unknown confidence value throws,
landing in the same catch block. Only a successful validated output is
written to the cache. -/
def verifyWithGPT (apiKeyConfigured : Bool)
    (modelCall : GPTVerificationInput → Except String ParsedResponse)
    (cache : LruCache GPTVerificationOutput) (input : GPTVerificationInput)
    (now : Nat) : GPTCallOutcome :=
  let cacheKey := generateGPTCacheKey input
  let got := lruGet cache cacheKey now
  match got.1 with
  | some cached => ⟨cached, got.2, []⟩
  | none =>
      if ¬ apiKeyConfigured then ⟨mockGPTOutput, got.2, []⟩
      else
        match modelCall input with
        | .error msg => ⟨gptErrorFallback msg, got.2, []⟩
        | .ok parsed =>
            if ¬ (fieldTruthy parsed.confidence) ∨
                ¬ (fieldTruthy parsed.summary_of_sources) ∨
                ¬ (fieldTruthy parsed.reasoning) then
              ⟨gptErrorFallback "Invalid response structure from GPT", got.2, []⟩
            else
              match parseConfidence (parsed.confidence.getD "") with
              | none =>
                  ⟨gptErrorFallback
                     ("Invalid confidence value: " ++ parsed.confidence.getD ""),
                   got.2, []⟩
              | some conf =>
                  let out : GPTVerificationOutput :=
                    ⟨conf, parsed.summary_of_sources.getD "",
                     parsed.reasoning.getD ""⟩
                  ⟨out, lruSet got.2 cacheKey out now, [(cacheKey, out)]⟩

/-- `if (result.confidence !== 'low' || !result.reasoning.includes('Error'))
return result` — the acceptance test inside `verifyWithRetry`. -/
def retryAccepts (result : GPTVerificationOutput) : Bool :=
  result.confidence != .low || !(strIncludes result.reasoning "Error")

/-- The give-up result after all retries failed; `lastError?.message ||
'Unknown error occurred during verification'`. -/
def exhaustedOutput (lastError : Option String) : GPTVerificationOutput :=
  { confidence := .low,
    summary_of_sources := "Verification failed after multiple attempts",
    reasoning :=
      match lastError with
      | some m => if m == "" then "Unknown error occurred during verification" else m
      | none => "Unknown error occurred during verification" }

/-- Observable trace of one `verifyWithRetry` call: the returned output,
the backoff sleeps performed (in ms, in order), and how many attempts were
made. -/
structure RetryTrace where
  output : GPTVerificationOutput
  sleeps : List Nat
  attemptsMade : Nat
deriving DecidableEq, Repr

/-- The `for (attempt = 0; attempt <= maxRetries; attempt++)` loop.
`attempts` is the oracle giving each attempt's outcome: `.error` when
`verifyWithGPT`'s promise rejects, `.ok` for a resolved result. An
accepted result returns immediately; a rejected attempt records the
`Math.pow(2, attempt) * 1000` backoff sleep when `attempt < maxRetries`;
a resolved-but-error-flagged result retries with no sleep (the `setTimeout`
sits only in the catch block). `fuel` counts the remaining iterations. -/
def verifyWithRetryLoop (attempts : Nat → Except String GPTVerificationOutput)
    (maxRetries : Nat) :
    Nat → Nat → Option String → RetryTrace
  | 0, _, lastError => ⟨exhaustedOutput lastError, [], 0⟩
  | fuel + 1, attempt, _ =>
      match attempts attempt with
      | .ok result =>
          if retryAccepts result then ⟨result, [], 1⟩
          else
            let rest := verifyWithRetryLoop attempts maxRetries fuel
              (attempt + 1) (some result.reasoning)
            ⟨rest.output, rest.sleeps, rest.attemptsMade + 1⟩
      | .error msg =>
          let sleepsHere := if attempt < maxRetries then [2 ^ attempt * 1000] else []
          let rest := verifyWithRetryLoop attempts maxRetries fuel
            (attempt + 1) (some msg)
          ⟨rest.output, sleepsHere ++ rest.sleeps, rest.attemptsMade + 1⟩

/-- `verifyWithRetry(input, maxRetries = 2)`: run the loop from attempt 0
with `maxRetries + 1` iterations available and no recorded error. -/
def verifyWithRetry (attempts : Nat → Except String GPTVerificationOutput)
    (maxRetries : Nat) : RetryTrace :=
  verifyWithRetryLoop attempts maxRetries (maxRetries + 1) 0 none

/-! ## Source fetcher (`lib/scraping.ts`) -/

/-- Outcome of the network fetch plus extraction for one URL: `.thrown`
covers a rejected fetch, the timeout and the thrown non-2xx branch (all
reach the catch block); `.ok` carries the extracted title and content. -/
inductive FetchOutcome
  | thrown (msg : String)
  | ok (title content : String)
deriving DecidableEq, Repr

/-- Result of one `scrapeUrl` call: the returned `SourceContent`, the
updated content cache, and how many network fetches were performed. -/
structure ScrapeStep where
  result : SourceContent
  cache : LruCache SourceContent
  fetchCalls : Nat
deriving DecidableEq, Repr

/-- `scrapeUrl(url)`. `parseOk` is the oracle for whether `new URL(url)`
succeeds (when it throws, its `TypeError` message `"Invalid URL"` reaches
the catch block); `normalize` is `normalizeUrl` (URL-library-backed,
abstracted as an oracle); `credOf` abstracts `evaluateCredibility`
(pure given its cache); `fetchOutcome` is the ScrapingBee fetch plus
cheerio extraction. The cache is consulted by the normalized key before
any fetch; the mock path (unconfigured API key) and the catch path both
cache their error-bearing results. -/
def scrapeUrl (apiKeyConfigured : Bool) (parseOk : String → Bool)
    (normalize : String → String) (credOf : String → Credibility)
    (fetchOutcome : String → FetchOutcome)
    (cache : LruCache SourceContent) (url : String) (now : Nat) : ScrapeStep :=
  if ¬ parseOk url then
    let errorResult : SourceContent :=
      ⟨url, url, "", credOf url, some "Invalid URL"⟩
    ⟨errorResult, lruSet cache (normalize url) errorResult now, 0⟩
  else
    let cacheKey := normalize url
    let got := lruGet cache cacheKey now
    match got.1 with
    | some cached => ⟨cached, got.2, 0⟩
    | none =>
        let credibility := credOf url
        if ¬ apiKeyConfigured then
          let mockResult : SourceContent :=
            ⟨url, "Mock Title - ScrapingBee not configured",
             "Mock content for URL: " ++ url, credibility,
             some "ScrapingBee API key not configured"⟩
          ⟨mockResult, lruSet got.2 cacheKey mockResult now, 0⟩
        else
          match fetchOutcome url with
          | .thrown msg =>
              let errorResult : SourceContent :=
                ⟨url, url, "", credOf url, some msg⟩
              ⟨errorResult, lruSet got.2 (normalize url) errorResult now, 1⟩
          | .ok title content =>
              let result : SourceContent :=
                ⟨url, title, content, credibility, none⟩
              ⟨result, lruSet got.2 cacheKey result now, 1⟩

/-! ### The `scrapeUrls` worker pool

`scrapeUrls` caps the input to 5 URLs, builds a queue of `(index, url)`
items, pre-sizes a results array, and starts `min(7, n)` workers, each
repeatedly shifting an item off the shared queue, awaiting `scrapeUrl`,
and writing the result at the item's original index. Cooperative
interleaving is modelled as a small-step system: a schedule names which
worker runs at each suspension point. -/

/-- A worker is about to shift the queue (`idle`), awaiting a fetch
(`fetching`), or finished (`done`). -/
inductive WorkerState
  | idle
  | fetching (url : String) (index : Nat)
  | done
deriving DecidableEq, Repr

/-- The pool's shared state. -/
structure PoolState where
  queue : List (Nat × String)
  results : List (Option SourceContent)
  workers : List WorkerState
deriving DecidableEq, Repr

/-- Initial pool state for `scrapeUrls(urls)`: the first 5 URLs enumerated
into the queue, a pre-sized results array, `min(7, n)` idle workers. -/
def initPool (urls : List String) : PoolState :=
  let limitedUrls := urls.take 5
  { queue := limitedUrls.enum,
    results := List.replicate limitedUrls.length none,
    workers := List.replicate (min 7 limitedUrls.length) .idle }

/-- One scheduler step: worker `w` either shifts the next queue item (or
retires on an empty queue) or completes its pending fetch, writing the
result at the item's original index. -/
def stepPool (fetch : String → SourceContent) (s : PoolState) (w : Nat) :
    PoolState :=
  match s.workers[w]? with
  | some .idle =>
      match s.queue with
      | [] => { s with workers := s.workers.set w .done }
      | item :: rest =>
          { s with queue := rest,
                   workers := s.workers.set w (.fetching item.2 item.1) }
  | some (.fetching url index) =>
      { s with results := s.results.set index (some (fetch url)),
               workers := s.workers.set w .idle }
  | _ => s

/-- Run a schedule (a list of worker indices) over the pool. -/
def runPool (fetch : String → SourceContent) (s : PoolState) :
    List Nat → PoolState
  | [] => s
  | w :: rest => runPool fetch (stepPool fetch s w) rest

/-- `Promise.all(workers)` has resolved: every worker retired. -/
def allWorkersDone (s : PoolState) : Bool :=
  s.workers.all (· == .done)

/-! ## Verification orchestrator (`lib/verification.ts`) -/

/-- Result of one `verifyParagraph` call: the updated store, the events
fired, the returned result, and how many times the source fetcher
(`scrapeUrls`) and the engine (`verifyWithRetry`) were invoked. -/
structure VerifyParagraphOutcome where
  store : Storage
  events : List Event
  result : VerificationResult
  scrapeCalls : Nat
  gptCalls : Nat
deriving DecidableEq, Repr

/-- The synthetic result stored for a heading paragraph. -/
def headingResultFor (docId : String) (paragraphId : Int) :
    VerificationResult :=
  { doc_id := docId, paragraph_id := paragraphId, confidence := .high,
    summary_of_sources := "제목/헤딩 - 검증 대상 아님",
    reasoning := "이 문단은 제목 또는 헤딩이므로 검증하지 않습니다.",
    link_digests := [] }

/-- The link digest built from one fetched source: the first 200 content
characters (with ellipsis), or `error || 'No content available'` when the
content is empty. -/
def linkDigestOf (source : SourceContent) : LinkDigest :=
  { url := source.url, title := source.title,
    summary :=
      if ¬ source.content == "" then
        strTake source.content 200 ++
          (if 200 < source.content.length then "..." else "")
      else
        match source.error with
        | some e => if e == "" then "No content available" else e
        | none => "No content available" }

/-- `verifyParagraph(docId, paragraph)`. `scrape` and `gpt` are the
oracles for `scrapeUrls` and `verifyWithRetry` (both total: each catches
its own failures in the source, so the orchestrator-level catch block is
unreachable through them). A heading paragraph skips both and stores the
synthetic high-confidence result through the ordinary
`storeResult` path. -/
def verifyParagraph (scrape : List String → List SourceContent)
    (gpt : GPTVerificationInput → GPTVerificationOutput)
    (s : Storage) (docId : String) (p : Paragraph) (now : Nat) :
    VerifyParagraphOutcome :=
  if p.isHeading then
    let headingResult := headingResultFor docId p.id
    let s1 := updateJobStatus s docId p.id .in_progress now
    let stored := storeResult s1 headingResult now
    ⟨stored.1, stored.2, headingResult, 0, 0⟩
  else
    let s1 := updateJobStatus s docId p.id .in_progress now
    let sources := scrape p.links
    let gptOutput := gpt ⟨p.text, p.links, sources⟩
    let result : VerificationResult :=
      { doc_id := docId, paragraph_id := p.id,
        confidence := gptOutput.confidence,
        summary_of_sources := gptOutput.summary_of_sources,
        reasoning := gptOutput.reasoning,
        link_digests := sources.map linkDigestOf }
    let stored := storeResult s1 result now
    ⟨stored.1, stored.2, result, 1, 1⟩

/-- The body of `cancelVerification`'s `forEach` over the snapshot of the
document's jobs: a job still `pending` (checked on the live store) is
flipped to `failed` via `updateJobStatus` and then `storeError` records
the cancellation message. -/
def cancelGo (docId : String) (now : Nat) :
    List VerificationJob → Storage → Storage × List Event
  | [], s => (s, [])
  | j :: rest, s =>
      if ((getJob s docId j.paragraph.id).map (·.status)) == some .pending then
        let s1 := updateJobStatus s docId j.paragraph.id .failed now
        let stepped := storeError s1 docId j.paragraph.id "Cancelled by user" now
        let tail := cancelGo docId now rest stepped.1
        (tail.1, stepped.2 ++ tail.2)
      else
        cancelGo docId now rest s

/-- `cancelVerification(docId)`: fail every still-pending job with a
cancellation message; in-progress jobs are not interrupted. -/
def cancelVerification (s : Storage) (docId : String) (now : Nat) :
    Storage × List Event :=
  cancelGo docId now (getJobs s docId) s

/-! ## Observables used by theorem statements -/

/-- An attempt outcome that `verifyWithRetry` does not accept: a rejection,
or a resolved error-flagged low-confidence fallback. -/
def attemptFails : Except String GPTVerificationOutput → Bool
  | .error _ => true
  | .ok r => !(retryAccepts r)

/-- Did the attempt reject (throw)? -/
def isThrown : Except String GPTVerificationOutput → Bool
  | .error _ => true
  | .ok _ => false

/-- The error message `verifyWithRetry` records for a failed attempt: the
thrown message, or the flagged fallback's reasoning
(`lastError = new Error(result.reasoning)`). -/
def finalMessage : Except String GPTVerificationOutput → String
  | .error msg => msg
  | .ok r => r.reasoning

/-- The per-job effect of `cancelVerification`: a pending job fails with
the cancellation message, any other job is untouched. -/
def cancelTransform (now : Nat) (j : VerificationJob) : VerificationJob :=
  if j.status == .pending then
    { j with status := .failed, error := some "Cancelled by user", updated_at := now }
  else j

/-- Invariant of the worker pool: `k` items have been shifted off the
queue; each is either held by exactly one fetching worker (result slot
still empty) or already written at its own index; unshifted slots are
empty; a retired worker certifies the queue was exhausted. -/
def PoolInv (fetch : String → SourceContent) (limited : List String)
    (s : PoolState) : Prop :=
  s.results.length = limited.length ∧
  s.workers.length = min 7 limited.length ∧
  ∃ k, k ≤ limited.length ∧ s.queue = limited.enum.drop k ∧
    (∀ (w i : Nat) (u : String),
      s.workers[w]? = some (WorkerState.fetching u i) →
      i < k ∧ limited[i]? = some u ∧ s.results[i]? = some none) ∧
    (∀ (w w' i : Nat) (u u' : String), w ≠ w' →
      s.workers[w]? = some (WorkerState.fetching u i) →
      s.workers[w']? ≠ some (WorkerState.fetching u' i)) ∧
    (∀ i : Nat, i < k →
      (∀ (w : Nat) (u : String),
        s.workers[w]? ≠ some (WorkerState.fetching u i)) →
      s.results[i]? = some (limited[i]?.map fetch)) ∧
    (∀ i : Nat, k ≤ i → i < limited.length → s.results[i]? = some none) ∧
    (∀ w : Nat, s.workers[w]? = some WorkerState.done → s.queue = [])

/-! ## Helper lemmas: maps and first-match updates -/

theorem updateFirst_of_no_match {p : α → Bool} {f : α → α} {l : List α}
    (h : ∀ a ∈ l, ¬ p a) : updateFirst p f l = l := by
  induction l with
  | nil => rfl
  | cons a t ih =>
      simp only [updateFirst]
      rw [if_neg (by simpa using h a (by simp))]
      rw [ih (fun x hx => h x (by simp [hx]))]

theorem find?_updateFirst (p : α → Bool) (f : α → α) (l : List α)
    (hpf : ∀ a, p (f a) = p a) :
    (updateFirst p f l).find? p = (l.find? p).map f := by
  induction l with
  | nil => rfl
  | cons a t ih =>
      by_cases hpa : p a
      · have hpfa : p (f a) = true := by rw [hpf]; exact hpa
        simp [updateFirst, hpa, List.find?_cons_of_pos, hpfa]
      · simp [updateFirst, hpa, List.find?_cons_of_neg, ih]

theorem mapGet_cons (e : String × α) (t : List (String × α)) (k : String) :
    mapGet (e :: t) k = if e.1 == k then some e.2 else mapGet t k := by
  by_cases he : e.1 = k <;>
    simp [mapGet, List.find?_cons_of_pos, List.find?_cons_of_neg, he]

theorem mapSet_cons_ne {e : String × α} {k : String} (t : List (String × α))
    (v : α) (he : ¬ e.1 = k) :
    mapSet (e :: t) k v = e :: mapSet t k v := by
  by_cases hany : t.any (fun x => x.1 == k) <;>
    simp [mapSet, updateFirst, he, hany]

theorem mapSet_cons_eq {e : String × α} {k : String} (t : List (String × α))
    (v : α) (he : e.1 = k) :
    mapSet (e :: t) k v = (e.1, v) :: t := by
  simp [mapSet, updateFirst, he]

theorem mapGet_mapSet_self (m : List (String × α)) (k : String) (v : α) :
    mapGet (mapSet m k v) k = some v := by
  induction m with
  | nil => simp [mapGet, mapSet]
  | cons e t ih =>
      by_cases he : e.1 = k
      · rw [mapSet_cons_eq t v he, mapGet_cons]
        simp [he]
      · rw [mapSet_cons_ne t v he, mapGet_cons]
        simp [he, ih]

theorem mapGet_mapSet_ne (m : List (String × α)) {k k' : String} (v : α)
    (h : k' ≠ k) : mapGet (mapSet m k v) k' = mapGet m k' := by
  induction m with
  | nil =>
      have : ¬ (k == k') = true := by simpa using fun hc => h (by simp_all)
      simp [mapGet, mapSet, List.find?_cons_of_neg, this]
  | cons e t ih =>
      by_cases he : e.1 = k
      · have hne' : ¬ e.1 = k' := by rw [he]; exact fun hc => h hc.symm
        rw [mapSet_cons_eq t v he, mapGet_cons, mapGet_cons]
        simp [hne', show ¬ (e.1 == k') = true by simpa using hne']
      · rw [mapSet_cons_ne t v he, mapGet_cons, mapGet_cons, ih]

theorem length_updateFirst (p : α → Bool) (f : α → α) (l : List α) :
    (updateFirst p f l).length = l.length := by
  induction l with
  | nil => rfl
  | cons a t ih =>
      by_cases hpa : p a <;> simp [updateFirst, hpa, ih]

theorem map_updateFirst {p : α → Bool} {f : α → α} {h : α → β} {l : List α}
    (hf : ∀ a, h (f a) = h a) :
    (updateFirst p f l).map h = l.map h := by
  induction l with
  | nil => rfl
  | cons a t ih =>
      by_cases hpa : p a <;> simp [updateFirst, hpa, ih, hf]

/-! ## Helper lemmas: effect of the store operations on a document's jobs -/

theorem getJobs_updateJobStatus (s : Storage) (d : String) (pid : Int)
    (st : JobStatus) (now : Nat) :
    getJobs (updateJobStatus s d pid st now) d =
      updateFirst (fun j => j.paragraph.id == pid)
        (fun j => { j with status := st, updated_at := now }) (getJobs s d) := by
  unfold updateJobStatus
  cases h : mapGet s.jobs d with
  | none => simp [getJobs, h, updateFirst]
  | some jobs => simp [getJobs, h, mapGet_mapSet_self]

theorem getJobs_storeResult (s : Storage) (r : VerificationResult) (now : Nat) :
    getJobs (storeResult s r now).1 r.doc_id =
      updateFirst (fun j => j.paragraph.id == r.paragraph_id)
        (fun j => { j with status := .completed, updated_at := now })
        (getJobs s r.doc_id) := by
  unfold storeResult
  simp only
  rw [getJobs_updateJobStatus]
  rfl

theorem getJobs_storeError (s : Storage) (d : String) (pid : Int)
    (msg : String) (now : Nat) :
    getJobs (storeError s d pid msg now).1 d =
      updateFirst (fun j => j.paragraph.id == pid)
        (fun j => { j with status := .failed, error := some msg, updated_at := now })
        (getJobs s d) := by
  unfold storeError
  cases h : getJob s d pid with
  | none =>
      have hnone : ∀ j ∈ getJobs s d, ¬ (j.paragraph.id == pid) = true := by
        intro j hj
        exact List.find?_eq_none.mp h j hj
      simp only [h]
      rw [updateFirst_of_no_match hnone]
  | some j => simp [h, getJobs, mapGet_mapSet_self]

theorem storeResult_events (s : Storage) (r : VerificationResult) (now : Nat) :
    (storeResult s r now).2 =
      Event.update r ::
        (if ((getJobs (storeResult s r now).1 r.doc_id).all fun job =>
              isTerminal job.status) ∧
            0 < (getJobs (storeResult s r now).1 r.doc_id).length then
          [Event.complete r.doc_id]
        else []) := by
  rfl

theorem storeError_events (s : Storage) (d : String) (pid : Int)
    (msg : String) (now : Nat) :
    (storeError s d pid msg now).2 =
      Event.error d pid msg ::
        (if ((getJobs (storeError s d pid msg now).1 d).all fun job =>
              isTerminal job.status) ∧
            0 < (getJobs (storeError s d pid msg now).1 d).length then
          [Event.complete d]
        else []) := by
  unfold storeError
  cases h : getJob s d pid <;> simp [h, getJobs]

/-! ## Helper lemmas: counting completion events -/

theorem all_terminal_iff_filter_nil (js : List VerificationJob) :
    (js.all fun j => isTerminal j.status) = true ↔
      js.filter (fun j => !(isTerminal j.status)) = [] := by
  rw [List.all_eq_true, List.filter_eq_nil_iff]
  simp

theorem nonterminal_ids_updateFirst {js : List VerificationJob} {pid : Int}
    {g : VerificationJob → VerificationJob}
    (hgt : ∀ j, isTerminal (g j).status = true)
    (hnd : (js.map fun j => j.paragraph.id).Nodup)
    (hmem : pid ∈ (js.filter fun j => !(isTerminal j.status)).map
      fun j => j.paragraph.id) :
    ((updateFirst (fun j => j.paragraph.id == pid) g js).filter
        fun j => !(isTerminal j.status)).map (fun j => j.paragraph.id) =
      ((js.filter fun j => !(isTerminal j.status)).map
        fun j => j.paragraph.id).erase pid := by
  induction js with
  | nil => simp at hmem
  | cons a t ih =>
      rw [List.map_cons, List.nodup_cons] at hnd
      by_cases ha : a.paragraph.id = pid
      · have hbeq : (a.paragraph.id == pid) = true := by simpa using ha
        have hnotin : pid ∉ t.map fun j => j.paragraph.id := ha ▸ hnd.1
        by_cases hat : isTerminal a.status
        · -- the unique pid job would be terminal: contradicts membership
          exfalso
          apply hnotin
          have hmem' : pid ∈ (t.filter fun j => !(isTerminal j.status)).map
              fun j => j.paragraph.id := by
            simpa [List.filter_cons, hat] using hmem
          rcases List.mem_map.mp hmem' with ⟨j, hj, hid⟩
          exact List.mem_map.mpr ⟨j, List.mem_of_mem_filter hj, hid⟩
        · simp only [updateFirst, hbeq, if_pos]
          rw [List.filter_cons, List.filter_cons]
          have hga : (!(isTerminal (g a).status)) = false := by simp [hgt a]
          have haf : (!(isTerminal a.status)) = true := by simpa using hat
          rw [hga, haf]
          simp only [Bool.false_eq_true, if_neg, not_false_iff, if_pos,
            List.map_cons, ha]
          rw [List.erase_cons_head]
      · have hbeq : (a.paragraph.id == pid) = false := by simpa using ha
        have ihp : ∀ hmem₂ : pid ∈ (t.filter fun j =>
            !(isTerminal j.status)).map fun j => j.paragraph.id,
            ((updateFirst (fun j => j.paragraph.id == pid) g t).filter
                fun j => !(isTerminal j.status)).map (fun j => j.paragraph.id) =
              ((t.filter fun j => !(isTerminal j.status)).map
                fun j => j.paragraph.id).erase pid := fun hmem₂ => ih hnd.2 hmem₂
        simp only [updateFirst, hbeq, Bool.false_eq_true, if_neg,
          not_false_iff]
        rw [List.filter_cons, List.filter_cons]
        by_cases hat : isTerminal a.status
        · have hga : (!(isTerminal a.status)) = false := by simp [hat]
          rw [hga]
          simp only [Bool.false_eq_true, if_neg, not_false_iff]
          have hmem' : pid ∈ (t.filter fun j => !(isTerminal j.status)).map
              fun j => j.paragraph.id := by
            simpa [List.filter_cons, hat] using hmem
          exact ihp hmem'
        · have haf : (!(isTerminal a.status)) = true := by simpa using hat
          rw [haf]
          simp only [if_pos, List.map_cons]
          have hmem' : pid ∈ (t.filter fun j => !(isTerminal j.status)).map
              fun j => j.paragraph.id := by
            have := hmem
            rw [List.filter_cons, haf] at this
            simp only [if_pos, List.map_cons, List.mem_cons] at this
            rcases this with h | h
            · exact absurd h.symm ha
            · exact h
          rw [ihp hmem']
          rw [List.erase_cons_tail]
          simpa using ha

theorem applyOp_jobs_char (s : Storage) (op : StoreOp) (d : String)
    (hdoc : op.docId = d) :
    ∃ g : VerificationJob → VerificationJob,
      (∀ j, isTerminal (g j).status = true) ∧
      (∀ j, (g j).paragraph = j.paragraph) ∧
      getJobs (applyOp s op).1 d =
        updateFirst (fun j => j.paragraph.id == op.paragraphId) g
          (getJobs s d) := by
  cases op with
  | res r now =>
      cases hdoc
      exact ⟨fun j => { j with status := .completed, updated_at := now },
        fun j => rfl, fun j => rfl, getJobs_storeResult s r now⟩
  | err d' pid msg now =>
      cases hdoc
      exact ⟨fun j =>
          { j with status := .failed, error := some msg, updated_at := now },
        fun j => rfl, fun j => rfl, getJobs_storeError s d' pid msg now⟩

theorem completeCount_applyOp (s : Storage) (op : StoreOp) (d : String)
    (hdoc : op.docId = d) :
    completeCount d (applyOp s op).2 =
      if ((getJobs (applyOp s op).1 d).all fun j => isTerminal j.status) ∧
          0 < (getJobs (applyOp s op).1 d).length then 1 else 0 := by
  cases op with
  | res r now =>
      cases hdoc
      simp only [StoreOp.docId]
      rw [show applyOp s (StoreOp.res r now) = storeResult s r now from rfl,
        storeResult_events]
      by_cases hC : ((getJobs (storeResult s r now).1 r.doc_id).all fun job =>
          isTerminal job.status) ∧
          0 < (getJobs (storeResult s r now).1 r.doc_id).length
      · rw [if_pos hC, if_pos hC]
        simp [completeCount, List.count_cons]
      · rw [if_neg hC, if_neg hC]
        simp [completeCount, List.count_cons]
  | err d' pid msg now =>
      cases hdoc
      simp only [StoreOp.docId]
      rw [show applyOp s (StoreOp.err d' pid msg now) =
          storeError s d' pid msg now from rfl, storeError_events]
      by_cases hC : ((getJobs (storeError s d' pid msg now).1 d').all fun job =>
          isTerminal job.status) ∧
          0 < (getJobs (storeError s d' pid msg now).1 d').length
      · rw [if_pos hC, if_pos hC]
        simp [completeCount, List.count_cons]
      · rw [if_neg hC, if_neg hC]
        simp [completeCount, List.count_cons]

/-- The central exactly-once argument: starting from any store whose jobs
for `d` have pairwise-distinct paragraph ids, a nonempty sequence of
terminal store calls that targets exactly the non-terminal jobs (one call
per job) fires the completion event for `d` exactly once. -/
theorem completeCount_runOps (d : String) (ops : List StoreOp) :
    ∀ (s : Storage),
      getJobs s d ≠ [] →
      ((getJobs s d).map fun j => j.paragraph.id).Nodup →
      (∀ op ∈ ops, op.docId = d) →
      ((ops.map StoreOp.paragraphId).Perm
        (((getJobs s d).filter fun j => !(isTerminal j.status)).map
          fun j => j.paragraph.id)) →
      ops ≠ [] →
      completeCount d (runOps s ops).2 = 1 := by
  induction ops with
  | nil => intro s _ _ _ _ hne; exact absurd rfl hne
  | cons op rest ih =>
      intro s h0 hnd hdoc hperm _
      have hdop : op.docId = d := hdoc op (List.mem_cons_self op rest)
      obtain ⟨g, hgt, hgp, hjobs⟩ := applyOp_jobs_char s op d hdop
      have hpidmem : op.paragraphId ∈
          ((getJobs s d).filter fun j => !(isTerminal j.status)).map
            fun j => j.paragraph.id :=
        hperm.mem_iff.mp (by simp)
      have hntids : ((getJobs (applyOp s op).1 d).filter
            fun j => !(isTerminal j.status)).map (fun j => j.paragraph.id) =
          (((getJobs s d).filter fun j => !(isTerminal j.status)).map
            fun j => j.paragraph.id).erase op.paragraphId := by
        rw [hjobs]
        exact nonterminal_ids_updateFirst hgt hnd hpidmem
      have hids : (getJobs (applyOp s op).1 d).map (fun j => j.paragraph.id) =
          (getJobs s d).map (fun j => j.paragraph.id) := by
        rw [hjobs]
        exact map_updateFirst (fun j => by rw [hgp])
      have hlen : (getJobs (applyOp s op).1 d).length = (getJobs s d).length := by
        rw [hjobs, length_updateFirst]
      have h0' : getJobs (applyOp s op).1 d ≠ [] := by
        intro hnil
        apply h0
        rw [hnil] at hlen
        exact List.length_eq_zero.mp hlen.symm
      have hrun : (runOps s (op :: rest)).2 =
          (applyOp s op).2 ++ (runOps (applyOp s op).1 rest).2 := rfl
      rw [hrun]
      have hcnt : completeCount d ((applyOp s op).2 ++
          (runOps (applyOp s op).1 rest).2) =
          completeCount d (applyOp s op).2 +
            completeCount d (runOps (applyOp s op).1 rest).2 := by
        unfold completeCount
        exact List.count_append _ _ _
      rw [hcnt]
      by_cases hrest : rest = []
      · -- the head call is the last terminal transition: completion fires here
        subst hrest
        have hsingle : (((getJobs s d).filter
            fun j => !(isTerminal j.status)).map fun j => j.paragraph.id) =
            [op.paragraphId] :=
          List.perm_singleton.mp (by simpa using hperm.symm)
        have hfilnil : ((getJobs (applyOp s op).1 d).filter
            fun j => !(isTerminal j.status)) = [] := by
          have : ((getJobs (applyOp s op).1 d).filter
              fun j => !(isTerminal j.status)).map (fun j => j.paragraph.id) =
              [] := by
            rw [hntids, hsingle, List.erase_cons_head]
          exact List.map_eq_nil_iff.mp this
        have hall : ((getJobs (applyOp s op).1 d).all
            fun j => isTerminal j.status) = true :=
          (all_terminal_iff_filter_nil _).mpr hfilnil
        rw [completeCount_applyOp s op d hdop,
          if_pos ⟨hall, List.length_pos.mpr h0'⟩]
        simp [runOps, completeCount]
      · -- some job is still non-terminal afterwards: no completion yet
        have hsplit := List.cons_perm_iff_perm_erase.mp hperm
        have hperm' : (rest.map StoreOp.paragraphId).Perm
            (((getJobs (applyOp s op).1 d).filter
              fun j => !(isTerminal j.status)).map fun j => j.paragraph.id) := by
          rw [hntids]
          exact hsplit.2
        have hmapne : rest.map StoreOp.paragraphId ≠ [] := by
          simpa using hrest
        have hntne : ((getJobs (applyOp s op).1 d).filter
            fun j => !(isTerminal j.status)) ≠ [] := by
          intro hnil
          apply hmapne
          have := hperm'.length_eq
          rw [hnil] at this
          simpa using List.length_eq_zero.mp (by simpa using this)
        have hnall : ¬ (((getJobs (applyOp s op).1 d).all
            fun j => isTerminal j.status) = true ∧
            0 < (getJobs (applyOp s op).1 d).length) := by
          rintro ⟨hall, -⟩
          exact hntne ((all_terminal_iff_filter_nil _).mp hall)
        rw [completeCount_applyOp s op d hdop, if_neg hnall]
        have hnd' : ((getJobs (applyOp s op).1 d).map
            fun j => j.paragraph.id).Nodup := by
          rw [hids]; exact hnd
        rw [ih (applyOp s op).1 h0' hnd'
          (fun op' h => hdoc op' (List.mem_cons_of_mem op h)) hperm' hrest]

/-! ## Helper lemmas: the result upsert -/

theorem upsertResult_cons (a : VerificationResult)
    (t : List VerificationResult) (r : VerificationResult) :
    upsertResult (a :: t) r =
      if a.paragraph_id == r.paragraph_id then r :: t
      else a :: upsertResult t r := by
  by_cases ha : a.paragraph_id = r.paragraph_id
  · simp [upsertResult, List.findIdx?_cons, ha]
  · have hb : (a.paragraph_id == r.paragraph_id) = false := by simpa using ha
    rw [if_neg (by simpa using ha)]
    simp only [upsertResult, List.findIdx?_cons, hb, Bool.false_eq_true,
      if_neg, not_false_iff]
    cases h : t.findIdx? (fun x => x.paragraph_id == r.paragraph_id) <;>
      simp [h]

theorem mem_keys_upsertResult {l : List VerificationResult}
    {r : VerificationResult} {pid : Int}
    (h : pid ∈ (upsertResult l r).map (fun x => x.paragraph_id)) :
    pid ∈ l.map (fun x => x.paragraph_id) ∨ pid = r.paragraph_id := by
  induction l with
  | nil =>
      simp only [upsertResult, List.findIdx?_nil, List.nil_append,
        List.map_cons, List.map_nil] at h
      exact Or.inr (by simpa using h)
  | cons a t ih =>
      rw [upsertResult_cons] at h
      by_cases ha : a.paragraph_id = r.paragraph_id
      · rw [if_pos (by simpa using ha), List.map_cons] at h
        rcases List.mem_cons.mp h with h' | h'
        · exact Or.inr h'
        · exact Or.inl (by rw [List.map_cons]; exact List.mem_cons_of_mem _ h')
      · rw [if_neg (by simpa using ha), List.map_cons] at h
        rcases List.mem_cons.mp h with h' | h'
        · exact Or.inl (by rw [List.map_cons, h']; exact List.mem_cons_self _ _)
        · rcases ih h' with h'' | h''
          · refine Or.inl ?_
            rw [List.map_cons]
            exact List.mem_cons_of_mem _ h''
          · exact Or.inr h''

theorem nodup_keys_upsertResult {l : List VerificationResult}
    (r : VerificationResult)
    (hnd : (l.map (fun x => x.paragraph_id)).Nodup) :
    ((upsertResult l r).map (fun x => x.paragraph_id)).Nodup := by
  induction l with
  | nil => simp [upsertResult]
  | cons a t ih =>
      rw [List.map_cons, List.nodup_cons] at hnd
      rw [upsertResult_cons]
      by_cases ha : a.paragraph_id = r.paragraph_id
      · rw [if_pos (by simpa using ha)]
        rw [List.map_cons, List.nodup_cons]
        exact ⟨ha ▸ hnd.1, hnd.2⟩
      · rw [if_neg (by simpa using ha)]
        rw [List.map_cons, List.nodup_cons]
        refine ⟨fun hmem => ?_, ih hnd.2⟩
        rcases mem_keys_upsertResult hmem with h' | h'
        · exact hnd.1 h'
        · exact ha h'

theorem filter_upsertResult {l : List VerificationResult}
    (r : VerificationResult)
    (hnd : (l.map (fun x => x.paragraph_id)).Nodup) :
    (upsertResult l r).filter (fun x => x.paragraph_id == r.paragraph_id) =
      [r] := by
  induction l with
  | nil => simp [upsertResult, List.filter_cons]
  | cons a t ih =>
      rw [List.map_cons, List.nodup_cons] at hnd
      rw [upsertResult_cons]
      by_cases ha : a.paragraph_id = r.paragraph_id
      · rw [if_pos (by simpa using ha)]
        rw [List.filter_cons]
        simp only [beq_self_eq_true, if_pos]
        have hfil : t.filter (fun x => x.paragraph_id == r.paragraph_id) =
            [] := by
          rw [List.filter_eq_nil_iff]
          intro x hx hbeq
          apply hnd.1
          rw [List.mem_map]
          exact ⟨x, hx, by rw [(by simpa using hbeq :
            x.paragraph_id = r.paragraph_id), ha]⟩
        rw [hfil]
      · rw [if_neg (by simpa using ha)]
        rw [List.filter_cons]
        have hb : (a.paragraph_id == r.paragraph_id) = false := by
          simpa using ha
        rw [hb]
        simp only [Bool.false_eq_true, if_neg, not_false_iff]
        exact ih hnd.2

theorem updateJobStatus_results (s : Storage) (d : String) (pid : Int)
    (st : JobStatus) (now : Nat) :
    (updateJobStatus s d pid st now).results = s.results := by
  unfold updateJobStatus
  cases mapGet s.jobs d <;> rfl

theorem getResults_storeResult (s : Storage) (r : VerificationResult)
    (now : Nat) :
    getResults (storeResult s r now).1 r.doc_id =
      upsertResult (getResults s r.doc_id) r := by
  unfold storeResult
  simp only
  rw [getResults, updateJobStatus_results]
  simp [mapGet_mapSet_self, getResults]

/-- Sorting by `≤` on `String` depends only on the multiset of elements. -/
theorem insertionSort_eq_of_perm {l1 l2 : List String} (h : l1.Perm l2) :
    List.insertionSort (· ≤ ·) l1 = List.insertionSort (· ≤ ·) l2 :=
  List.eq_of_perm_of_sorted
    (((List.perm_insertionSort _ l1).trans h).trans
      (List.perm_insertionSort _ l2).symm)
    (List.sorted_insertionSort _ l1)
    (List.sorted_insertionSort _ l2)

/-! ## Claim C1: the completion event -/

/-- C1, counterexample: the claim says no sequence of
`storeResult`/`storeError` calls invokes the completion listeners a second
time for the same `doc_id`; but the store keeps no fired-already flag, so
a repeated `storeResult` for a document whose single job is already
completed re-runs the completion check and fires completion again — two
completion notifications for `"d"`. -/
theorem claim1_completion_counterexample :
    completeCount "d"
      (runOps (createJobs Storage.empty "d"
          [{ id := 1, order := 1, text := "x", links := [] }] 0).1
        [StoreOp.res { doc_id := "d", paragraph_id := 1, confidence := .high,
                       summary_of_sources := "s", reasoning := "r",
                       link_digests := [] } 1,
         StoreOp.res { doc_id := "d", paragraph_id := 1, confidence := .high,
                       summary_of_sources := "s", reasoning := "r",
                       link_digests := [] } 2]).2
      = 2 := by
  decide

/-- C1, amended: a completion notification for `d` is fired only by a call
targeting `d`, only when afterwards every job of `d` is terminal and `d`
has at least one job; and for any store whose jobs for `d` have distinct
paragraph ids, any nonempty sequence of terminal calls that gives each
non-terminal job exactly one `storeResult`/`storeError` (and targets
nothing else in `d`) fires completion for `d` exactly once. (Without that
discipline a repeated terminal call re-fires completion, as the
counterexample shows.) -/
theorem claim1_completion_amended :
    (∀ (s : Storage) (r : VerificationResult) (now : Nat) (d : String),
      Event.complete d ∈ (storeResult s r now).2 →
      d = r.doc_id ∧
      ((getJobs (storeResult s r now).1 d).all fun j =>
        isTerminal j.status) = true ∧
      0 < (getJobs (storeResult s r now).1 d).length) ∧
    (∀ (s : Storage) (d0 : String) (pid : Int) (msg : String) (now : Nat)
      (d : String),
      Event.complete d ∈ (storeError s d0 pid msg now).2 →
      d = d0 ∧
      ((getJobs (storeError s d0 pid msg now).1 d).all fun j =>
        isTerminal j.status) = true ∧
      0 < (getJobs (storeError s d0 pid msg now).1 d).length) ∧
    (∀ (d : String) (ops : List StoreOp) (s : Storage),
      getJobs s d ≠ [] →
      ((getJobs s d).map fun j => j.paragraph.id).Nodup →
      (∀ op ∈ ops, op.docId = d) →
      ((ops.map StoreOp.paragraphId).Perm
        (((getJobs s d).filter fun j => !(isTerminal j.status)).map
          fun j => j.paragraph.id)) →
      ops ≠ [] →
      completeCount d (runOps s ops).2 = 1) := by
  refine ⟨?_, ?_, fun d ops s => completeCount_runOps d ops s⟩
  · intro s r now d hmem
    rw [storeResult_events] at hmem
    rcases List.mem_cons.mp hmem with h | h
    · exact absurd h (by simp)
    · by_cases hC : ((getJobs (storeResult s r now).1 r.doc_id).all fun job =>
          isTerminal job.status) = true ∧
          0 < (getJobs (storeResult s r now).1 r.doc_id).length
      · rw [if_pos hC] at h
        have hd : d = r.doc_id := by
          have := List.mem_singleton.mp h
          injection this
        subst hd
        exact ⟨rfl, hC.1, hC.2⟩
      · rw [if_neg hC] at h
        exact absurd h (List.not_mem_nil _)
  · intro s d0 pid msg now d hmem
    rw [storeError_events] at hmem
    rcases List.mem_cons.mp hmem with h | h
    · exact absurd h (by simp)
    · by_cases hC : ((getJobs (storeError s d0 pid msg now).1 d0).all fun job =>
          isTerminal job.status) = true ∧
          0 < (getJobs (storeError s d0 pid msg now).1 d0).length
      · rw [if_pos hC] at h
        have hd : d = d0 := by
          have := List.mem_singleton.mp h
          injection this
        subst hd
        exact ⟨rfl, hC.1, hC.2⟩
      · rw [if_neg hC] at h
        exact absurd h (List.not_mem_nil _)

/-- C1, witness: a one-job document with a single `storeResult` call fires
completion exactly once. -/
theorem claim1_completion_amended_witness :
    completeCount "d"
      (runOps (createJobs Storage.empty "d"
          [{ id := 1, order := 1, text := "x", links := [] }] 0).1
        [StoreOp.res { doc_id := "d", paragraph_id := 1, confidence := .high,
                       summary_of_sources := "s", reasoning := "r",
                       link_digests := [] } 1]).2 = 1 :=
  claim1_completion_amended.2.2 "d"
    [StoreOp.res { doc_id := "d", paragraph_id := 1, confidence := .high,
                   summary_of_sources := "s", reasoning := "r",
                   link_digests := [] } 1]
    (createJobs Storage.empty "d"
      [{ id := 1, order := 1, text := "x", links := [] }] 0).1
    (by decide) (by decide) (by decide) (by decide) (by decide)

/-! ## Claim C2: the job status state machine -/

/-- C2, counterexample: the claim says a `completed`/`failed` job is never
changed by a subsequent operation; but `updateJobStatus` overwrites
unconditionally: after `storeError` flips job 1 to `failed` (terminal), a
subsequent `updateJobStatus(…, 'pending')` reverts it to `pending`. -/
theorem claim2_status_counterexample :
    ((getJob (storeError (createJobs Storage.empty "d"
        [{ id := 1, order := 1, text := "x", links := [] }] 0).1
        "d" 1 "boom" 1).1 "d" 1).map (fun j => j.status) =
      some JobStatus.failed) ∧
    ((getJob (updateJobStatus (storeError (createJobs Storage.empty "d"
        [{ id := 1, order := 1, text := "x", links := [] }] 0).1
        "d" 1 "boom" 1).1 "d" 1 .pending 2) "d" 1).map (fun j => j.status) =
      some JobStatus.pending) := by
  decide

/-- C2, amended: the store's operations write statuses unconditionally —
`createJobs` initializes every job to `pending`, `updateJobStatus` sets
exactly the requested status, `storeResult` sets `completed` and
`storeError` sets `failed`, each regardless of the job's current status
(terminal states included). The documented state machine is maintained
only by the callers' discipline, not enforced by the store. -/
theorem claim2_status_amended :
    (∀ (s : Storage) (d : String) (ps : List Paragraph) (now : Nat),
      ∀ j ∈ getJobs (createJobs s d ps now).1 d, j.status = .pending) ∧
    (∀ (s : Storage) (d : String) (pid : Int) (st : JobStatus) (now : Nat)
      (j : VerificationJob), getJob s d pid = some j →
      getJob (updateJobStatus s d pid st now) d pid =
        some { j with status := st, updated_at := now }) ∧
    (∀ (s : Storage) (r : VerificationResult) (now : Nat)
      (j : VerificationJob), getJob s r.doc_id r.paragraph_id = some j →
      getJob (storeResult s r now).1 r.doc_id r.paragraph_id =
        some { j with status := .completed, updated_at := now }) ∧
    (∀ (s : Storage) (d : String) (pid : Int) (msg : String) (now : Nat)
      (j : VerificationJob), getJob s d pid = some j →
      getJob (storeError s d pid msg now).1 d pid =
        some { j with status := .failed, error := some msg, updated_at := now }) := by
  refine ⟨?_, ?_, ?_, ?_⟩
  · intro s d ps now j hj
    unfold createJobs at hj
    simp only [getJobs, mapGet_mapSet_self, Option.getD_some] at hj
    rcases List.mem_map.mp hj with ⟨p, -, hp⟩
    rw [← hp]
  · intro s d pid st now j hj
    unfold getJob
    rw [getJobs_updateJobStatus,
      find?_updateFirst (fun j => j.paragraph.id == pid)
        (fun j => { j with status := st, updated_at := now })
        (getJobs s d) (fun a => rfl), ← getJob, hj]
    rfl
  · intro s r now j hj
    unfold getJob
    rw [getJobs_storeResult,
      find?_updateFirst (fun j => j.paragraph.id == r.paragraph_id)
        (fun j => { j with status := JobStatus.completed, updated_at := now })
        (getJobs s r.doc_id) (fun a => rfl), ← getJob, hj]
    rfl
  · intro s d pid msg now j hj
    unfold getJob
    rw [getJobs_storeError,
      find?_updateFirst (fun j => j.paragraph.id == pid)
        (fun j => { j with status := JobStatus.failed, error := some msg, updated_at := now })
        (getJobs s d) (fun a => rfl), ← getJob, hj]
    rfl

/-- C2, witness: `updateJobStatus` at a concrete store. -/
theorem claim2_status_amended_witness :
    getJob (updateJobStatus (createJobs Storage.empty "d"
        [{ id := 1, order := 1, text := "x", links := [] }] 0).1
      "d" 1 .in_progress 5) "d" 1 =
      some { doc_id := "d",
             paragraph := { id := 1, order := 1, text := "x", links := [] },
             status := .in_progress, created_at := 0, updated_at := 5 } :=
  claim2_status_amended.2.1 (createJobs Storage.empty "d"
      [{ id := 1, order := 1, text := "x", links := [] }] 0).1
    "d" 1 .in_progress 5
    { doc_id := "d",
      paragraph := { id := 1, order := 1, text := "x", links := [] },
      status := .pending, created_at := 0, updated_at := 0 }
    (by decide)

/-! ## Claim C3: the GPT cache key -/

/-- C3, counterexample: the claim says two inputs whose source snippets
differ in even one source get different keys; but the snippets are joined
with `'|'` before hashing, so `["a|b", "c"]` and `["a", "b|c"]` — same
text, same links, snippets differing in both sources — produce the same
combined string and hence the same key. -/
theorem claim3_cache_key_counterexample :
    (generateGPTCacheKey
        { paragraph_text := "t", paragraph_links := ["u"],
          sources := [{ url := "a", title := "a", content := "a|b",
                        credibility := .unknown },
                      { url := "b", title := "b", content := "c",
                        credibility := .unknown }] } =
      generateGPTCacheKey
        { paragraph_text := "t", paragraph_links := ["u"],
          sources := [{ url := "a", title := "a", content := "a",
                        credibility := .unknown },
                      { url := "b", title := "b", content := "b|c",
                        credibility := .unknown }] }) ∧
    (GPTVerificationInput.sources
        { paragraph_text := "t", paragraph_links := ["u"],
          sources := [{ url := "a", title := "a", content := "a|b",
                        credibility := .unknown },
                      { url := "b", title := "b", content := "c",
                        credibility := .unknown }] }).map
        (fun s => strTake s.content 1000) ≠
      (GPTVerificationInput.sources
        { paragraph_text := "t", paragraph_links := ["u"],
          sources := [{ url := "a", title := "a", content := "a",
                        credibility := .unknown },
                      { url := "b", title := "b", content := "b|c",
                        credibility := .unknown }] }).map
        (fun s => strTake s.content 1000) := by
  constructor
  · exact congrArg SHA256.sha256Hex (by decide)
  · decide

/-- C3, amended: the determinism half holds — two inputs with the same
paragraph text, the same link multiset (any order) and the same source
snippet sequence get the same key; but differing snippets do not
guarantee different keys (see the counterexample), and reordering the
sources themselves reorders the joined snippets, which the key does not
sort. -/
theorem claim3_cache_key_amended (i1 i2 : GPTVerificationInput)
    (htext : i1.paragraph_text = i2.paragraph_text)
    (hlinks : i1.paragraph_links.Perm i2.paragraph_links)
    (hsnips : i1.sources.map (fun s => strTake s.content 1000) =
      i2.sources.map (fun s => strTake s.content 1000)) :
    generateGPTCacheKey i1 = generateGPTCacheKey i2 := by
  unfold generateGPTCacheKey combinedInput
  rw [htext, hsnips, insertionSort_eq_of_perm hlinks]

/-- C3, witness: links in swapped order, same snippets, same key. -/
theorem claim3_cache_key_amended_witness :
    generateGPTCacheKey
      { paragraph_text := "t", paragraph_links := ["b", "a"],
        sources := [{ url := "a", title := "a", content := "x",
                      credibility := .unknown }] } =
    generateGPTCacheKey
      { paragraph_text := "t", paragraph_links := ["a", "b"],
        sources := [{ url := "a", title := "a", content := "x",
                      credibility := .unknown }] } :=
  claim3_cache_key_amended _ _ (by decide) (by decide) (by decide)

/-! ## Helper lemmas: `cancelVerification` -/

theorem updateFirst_append_left {p : α → Bool} {f : α → α}
    {l1 : List α} (l2 : List α) (h : ∀ a ∈ l1, ¬ p a = true) :
    updateFirst p f (l1 ++ l2) = l1 ++ updateFirst p f l2 := by
  induction l1 with
  | nil => rfl
  | cons a t ih =>
      simp only [List.cons_append, updateFirst, List.append_eq]
      rw [if_neg (h a (List.mem_cons_self a t))]
      rw [ih (fun x hx => h x (List.mem_cons_of_mem a hx))]

theorem find?_append_right {q : α → Bool} {l1 : List α} (l2 : List α)
    (h : ∀ a ∈ l1, ¬ q a = true) :
    (l1 ++ l2).find? q = l2.find? q := by
  induction l1 with
  | nil => rfl
  | cons a t ih =>
      rw [List.cons_append,
        List.find?_cons_of_neg _ (h a (List.mem_cons_self a t))]
      exact ih (fun x hx => h x (List.mem_cons_of_mem a hx))

theorem getJobs_updateJobStatus_ne (s : Storage) {d d' : String} (pid : Int)
    (st : JobStatus) (now : Nat) (h : d' ≠ d) :
    getJobs (updateJobStatus s d pid st now) d' = getJobs s d' := by
  unfold updateJobStatus
  cases hm : mapGet s.jobs d with
  | none => rfl
  | some jobs => simp [getJobs, mapGet_mapSet_ne _ _ h]

theorem getJobs_storeError_ne (s : Storage) {d d' : String} (pid : Int)
    (msg : String) (now : Nat) (h : d' ≠ d) :
    getJobs (storeError s d pid msg now).1 d' = getJobs s d' := by
  unfold storeError
  cases hm : getJob s d pid with
  | none => rfl
  | some j => simp [getJobs, mapGet_mapSet_ne _ _ h]

theorem storeError_results (s : Storage) (d : String) (pid : Int)
    (msg : String) (now : Nat) :
    (storeError s d pid msg now).1.results = s.results := by
  unfold storeError
  cases hm : getJob s d pid <;> rfl

/-- Full characterization of the `forEach` in `cancelVerification`,
generalized over the already-processed prefix `front`. -/
theorem cancelGo_spec (d : String) (now : Nat) :
    ∀ (rest : List VerificationJob) (s : Storage)
      (front : List VerificationJob),
      getJobs s d = front ++ rest →
      (((front ++ rest).map fun j => j.paragraph.id).Nodup) →
      getJobs (cancelGo d now rest s).1 d =
          front ++ rest.map (cancelTransform now) ∧
      (cancelGo d now rest s).1.results = s.results ∧
      (∀ d', d' ≠ d → getJobs (cancelGo d now rest s).1 d' = getJobs s d') ∧
      ((∃ j ∈ front ++ rest, j.status = .in_progress) →
        (cancelGo d now rest s).2 =
          (rest.filter (fun j => j.status == .pending)).map
            (fun j => Event.error d j.paragraph.id "Cancelled by user")) := by
  intro rest
  induction rest with
  | nil =>
      intro s front hjobs hnd
      refine ⟨by simpa using hjobs, rfl, fun d' _ => rfl, fun _ => rfl⟩
  | cons j rest' ih =>
      intro s front hjobs hnd
      have hfrontne : ∀ a ∈ front, ¬ (a.paragraph.id == j.paragraph.id) = true := by
        intro a ha hbeq
        have hdisj := (List.nodup_append.mp (by simpa using hnd)).2.2
        exact hdisj (List.mem_map.mpr ⟨a, ha, rfl⟩)
          (by simp [(by simpa using hbeq : a.paragraph.id = j.paragraph.id)])
      have hgetj : getJob s d j.paragraph.id = some j := by
        unfold getJob
        rw [hjobs, find?_append_right _ hfrontne,
          List.find?_cons_of_pos _ (by simp)]
      by_cases hp : j.status = .pending
      · -- the pending job is cancelled
        have hcheck : ((getJob s d j.paragraph.id).map (fun x => x.status)) ==
            some JobStatus.pending := by
          rw [hgetj]
          simp [hp]
        have hunfold : cancelGo d now (j :: rest') s =
            ((cancelGo d now rest'
                (storeError (updateJobStatus s d j.paragraph.id .failed now)
                  d j.paragraph.id "Cancelled by user" now).1).1,
              (storeError (updateJobStatus s d j.paragraph.id .failed now)
                  d j.paragraph.id "Cancelled by user" now).2 ++
                (cancelGo d now rest'
                  (storeError (updateJobStatus s d j.paragraph.id .failed now)
                    d j.paragraph.id "Cancelled by user" now).1).2) := by
          rw [cancelGo, if_pos hcheck]
        set s1 := updateJobStatus s d j.paragraph.id .failed now with hs1
        set s2 := (storeError s1 d j.paragraph.id "Cancelled by user" now).1
          with hs2
        have hjc : cancelTransform now j =
            { j with status := .failed, error := some "Cancelled by user", updated_at := now } := by
          unfold cancelTransform
          rw [if_pos (by simp [hp])]
        have hjobs1 : getJobs s1 d = front ++
            ({ j with status := .failed, updated_at := now } :: rest') := by
          rw [hs1, getJobs_updateJobStatus, hjobs,
            updateFirst_append_left _ hfrontne]
          congr 1
          rw [updateFirst, if_pos (by simp)]
        have hjobs2 : getJobs s2 d = front ++
            (cancelTransform now j :: rest') := by
          rw [hs2, getJobs_storeError, hjobs1,
            updateFirst_append_left _ hfrontne]
          congr 1
          rw [updateFirst, if_pos (by simp), hjc]
        have hids2 : (((front ++ [cancelTransform now j]) ++ rest').map
            fun x => x.paragraph.id).Nodup := by
          have : ((front ++ [cancelTransform now j]) ++ rest').map
              (fun x => x.paragraph.id) =
              ((front ++ j :: rest').map fun x => x.paragraph.id) := by
            simp [hjc]
          rw [this]
          exact hnd
        obtain ⟨ihjobs, ihres, ihne, ihev⟩ := ih s2
          (front ++ [cancelTransform now j])
          (by rw [hjobs2, List.append_assoc]; rfl) hids2
        rw [hunfold]
        refine ⟨?_, ?_, ?_, ?_⟩
        · rw [ihjobs, List.append_assoc]
          simp [hjc]
        · rw [ihres, hs2, storeError_results, hs1, updateJobStatus_results]
        · intro d' hd'
          rw [ihne d' hd', hs2, getJobs_storeError_ne _ _ _ _ hd', hs1,
            getJobs_updateJobStatus_ne _ _ _ _ hd']
        · rintro ⟨jw, hjwmem, hjw⟩
          have hjwne : jw ≠ j := by
            intro hcontra
            rw [hcontra, hp] at hjw
            cases hjw
          have hjwmem2 : jw ∈ (front ++ [cancelTransform now j]) ++ rest' := by
            rcases List.mem_append.mp hjwmem with hf | hjr
            · exact List.mem_append_left _ (List.mem_append_left _ hf)
            · rcases List.mem_cons.mp hjr with he | hr
              · exact absurd he hjwne
              · exact List.mem_append_right _ hr
          have hnotall : ¬ (((getJobs s2 d).all fun job =>
              isTerminal job.status) = true ∧ 0 < (getJobs s2 d).length) := by
            rintro ⟨hall, -⟩
            have hjw2 : jw ∈ getJobs s2 d := by
              rw [hjobs2]
              rcases List.mem_append.mp hjwmem with hf | hjr
              · exact List.mem_append_left _ hf
              · rcases List.mem_cons.mp hjr with he | hr
                · exact absurd he hjwne
                · exact List.mem_append_right _ (List.mem_cons_of_mem _ hr)
            have := List.all_eq_true.mp hall jw hjw2
            rw [hjw] at this
            cases this
          have hsev : (storeError s1 d j.paragraph.id "Cancelled by user"
              now).2 = [Event.error d j.paragraph.id "Cancelled by user"] := by
            rw [storeError_events]
            rw [if_neg (by rw [← hs2] at *; exact hnotall)]
          rw [hsev, ihev ⟨jw, hjwmem2, hjw⟩]
          rw [List.filter_cons, if_pos (by simp [hp])]
          rw [List.map_cons]
          rfl
      · -- non-pending jobs are left untouched
        have hcheck : ¬ (((getJob s d j.paragraph.id).map (fun x => x.status)) ==
            some JobStatus.pending) = true := by
          rw [hgetj]
          simpa using hp
        have hunfold : cancelGo d now (j :: rest') s =
            cancelGo d now rest' s := by
          rw [cancelGo, if_neg hcheck]
        have htrans : cancelTransform now j = j := by
          unfold cancelTransform
          rw [if_neg (by simpa using hp)]
        obtain ⟨ihjobs, ihres, ihne, ihev⟩ := ih s (front ++ [j])
          (by rw [hjobs, List.append_assoc]; rfl)
          (by rw [List.append_assoc]; simpa using hnd)
        rw [hunfold]
        refine ⟨?_, ihres, ihne, ?_⟩
        · rw [ihjobs, List.append_assoc]
          simp [htrans]
        · rintro ⟨jw, hjwmem, hjw⟩
          have hjwmem2 : jw ∈ (front ++ [j]) ++ rest' := by
            rw [List.append_assoc]
            simpa using hjwmem
          rw [ihev ⟨jw, hjwmem2, hjw⟩]
          rw [List.filter_cons, if_neg (by simpa using hp)]

/-- After the cancel transform, the non-terminal jobs are exactly the
originally in-progress ones. -/
theorem nonterminal_ids_cancelTransform (now : Nat)
    (js : List VerificationJob) :
    ((js.map (cancelTransform now)).filter
        (fun j => !(isTerminal j.status))).map (fun j => j.paragraph.id) =
      (js.filter (fun j => j.status == .in_progress)).map
        (fun j => j.paragraph.id) := by
  induction js with
  | nil => rfl
  | cons j t ih =>
      rw [List.map_cons, List.filter_cons, List.filter_cons]
      cases hst : j.status with
      | pending =>
          have hL : cancelTransform now j =
              { j with status := .failed, error := some "Cancelled by user", updated_at := now } := by
            unfold cancelTransform
            rw [if_pos (by simp [hst])]
          rw [hL]
          simp only [show
            (!(isTerminal ({ j with status := JobStatus.failed, error := some "Cancelled by user", updated_at := now } : VerificationJob).status)) = false
            from rfl, Bool.false_eq_true, if_false]
          rw [if_neg (by decide)]
          exact ih
      | in_progress =>
          have hL : cancelTransform now j = j := by
            unfold cancelTransform
            rw [if_neg (by simp [hst])]
          have hc1 : (!(isTerminal j.status)) = true := by
            rw [hst]
            rfl
          rw [hL]
          simp only [hc1, eq_self_iff_true, if_true]
          rw [if_pos (by decide), List.map_cons, List.map_cons, ih]
      | completed =>
          have hL : cancelTransform now j = j := by
            unfold cancelTransform
            rw [if_neg (by simp [hst])]
          have hc1 : (!(isTerminal j.status)) = false := by
            rw [hst]
            rfl
          rw [hL]
          simp only [hc1, Bool.false_eq_true, if_false]
          rw [if_neg (by decide)]
          exact ih
      | failed =>
          have hL : cancelTransform now j = j := by
            unfold cancelTransform
            rw [if_neg (by simp [hst])]
          have hc1 : (!(isTerminal j.status)) = false := by
            rw [hst]
            rfl
          rw [hL]
          simp only [hc1, Bool.false_eq_true, if_false]
          rw [if_neg (by decide)]
          exact ih

theorem completeCount_error_events (d : String)
    (js : List VerificationJob) :
    completeCount d (js.map
      (fun j => Event.error d j.paragraph.id "Cancelled by user")) = 0 := by
  unfold completeCount
  rw [List.count_eq_zero]
  intro hmem
  rcases List.mem_map.mp hmem with ⟨j, -, hj⟩
  cases hj

/-! ## Helper lemmas: reading back stored results and job updates -/

theorem find?_upsertResult (l : List VerificationResult)
    (r : VerificationResult) :
    (upsertResult l r).find? (fun x => x.paragraph_id == r.paragraph_id) =
      some r := by
  induction l with
  | nil =>
      simp only [upsertResult, List.findIdx?_nil, List.nil_append]
      rw [List.find?_cons_of_pos _ (by simp)]
  | cons a t ih =>
      rw [upsertResult_cons]
      by_cases ha : a.paragraph_id = r.paragraph_id
      · rw [if_pos (by simpa using ha), List.find?_cons_of_pos _ (by simp)]
      · rw [if_neg (by simpa using ha),
          List.find?_cons_of_neg _ (by simpa using ha)]
        exact ih

theorem getResult_storeResult (s : Storage) (r : VerificationResult)
    (now : Nat) :
    getResult (storeResult s r now).1 r.doc_id r.paragraph_id = some r := by
  unfold getResult
  rw [getResults_storeResult]
  exact find?_upsertResult _ r

theorem getJob_updateJobStatus (s : Storage) (d : String) (pid : Int)
    (st : JobStatus) (now : Nat) {j : VerificationJob}
    (hj : getJob s d pid = some j) :
    getJob (updateJobStatus s d pid st now) d pid =
      some { j with status := st, updated_at := now } := by
  unfold getJob
  rw [getJobs_updateJobStatus,
    find?_updateFirst (fun x => x.paragraph.id == pid)
      (fun x => { x with status := st, updated_at := now })
      (getJobs s d) (fun a => rfl), ← getJob, hj]
  rfl

theorem getJob_storeResult_self (s : Storage) (r : VerificationResult)
    (now : Nat) {j : VerificationJob}
    (hj : getJob s r.doc_id r.paragraph_id = some j) :
    getJob (storeResult s r now).1 r.doc_id r.paragraph_id =
      some { j with status := .completed, updated_at := now } := by
  unfold getJob
  rw [getJobs_storeResult,
    find?_updateFirst (fun x => x.paragraph.id == r.paragraph_id)
      (fun x => { x with status := JobStatus.completed, updated_at := now })
      (getJobs s r.doc_id) (fun a => rfl), ← getJob, hj]
  rfl

/-! ## Helper lemmas: the LRU cache model -/

theorem lruGet_snd_maxSize (c : LruCache α) (k : String) (now : Nat) :
    (lruGet c k now).2.maxSize = c.maxSize := by
  unfold lruGet
  cases h : c.entries.find? (fun e => e.1 == k) with
  | none => rfl
  | some e => by_cases h2 : now - e.2.2 > c.ttl <;> simp [h2]

theorem lruGet_snd_ttl (c : LruCache α) (k : String) (now : Nat) :
    (lruGet c k now).2.ttl = c.ttl := by
  unfold lruGet
  cases h : c.entries.find? (fun e => e.1 == k) with
  | none => rfl
  | some e => by_cases h2 : now - e.2.2 > c.ttl <;> simp [h2]

theorem lruGet_lruSet_self (c : LruCache α) (k : String) (v : α)
    (now now2 : Nat) (hmax : 1 ≤ c.maxSize) (httl : now2 - now ≤ c.ttl) :
    (lruGet (lruSet c k v now) k now2).1 = some v := by
  obtain ⟨m, hm⟩ := Nat.exists_eq_add_of_le hmax
  have hents : (lruSet c k v now).entries =
      (k, v, now) :: (c.entries.filter (fun x => ¬ x.1 == k)).take m := by
    unfold lruSet
    rw [hm, Nat.add_comm, List.take_succ_cons]
  have httl2 : ¬ now2 - now > (lruSet c k v now).ttl := by
    have h3 : (lruSet c k v now).ttl = c.ttl := rfl
    rw [h3]
    omega
  unfold lruGet
  rw [hents, List.find?_cons_of_pos _ (by simp)]
  simp [httl2]

theorem lruPeek_lruSet_self (c : LruCache α) (k : String) (v : α)
    (now now2 : Nat) (hmax : 1 ≤ c.maxSize) (httl : now2 - now ≤ c.ttl) :
    lruPeek (lruSet c k v now) k now2 = some v := by
  obtain ⟨m, hm⟩ := Nat.exists_eq_add_of_le hmax
  have hents : (lruSet c k v now).entries =
      (k, v, now) :: (c.entries.filter (fun x => ¬ x.1 == k)).take m := by
    unfold lruSet
    rw [hm, Nat.add_comm, List.take_succ_cons]
  unfold lruPeek
  rw [hents, List.find?_cons_of_pos _ (by simp)]
  show (if now2 - now > (lruSet c k v now).ttl then none else some v) = some v
  rw [if_neg (by
    have : (lruSet c k v now).ttl = c.ttl := rfl
    rw [this]
    omega)]

/-! ## Claim C9: `verifyWithGPT` cache population -/

/-- C9, confirmed: on a cache miss, the unconfigured-API-key path returns
the labeled low-confidence mock result and performs no cache write; a
model call that succeeds and validates writes exactly the validated
output under `generateGPTCacheKey input` (and the output is retrievable
from the cache); a thrown model call writes nothing and yields the
low-confidence error fallback; a cache hit writes nothing and returns the
cached output. -/
theorem claim9_gpt_cache_population (apiKey : Bool)
    (modelCall : GPTVerificationInput → Except String ParsedResponse)
    (cache : LruCache GPTVerificationOutput) (input : GPTVerificationInput)
    (now : Nat) :
    ((lruGet cache (generateGPTCacheKey input) now).1 = none →
      apiKey = false →
      (verifyWithGPT apiKey modelCall cache input now).output =
        mockGPTOutput ∧
      (verifyWithGPT apiKey modelCall cache input now).writes = []) ∧
    (∀ (parsed : ParsedResponse) (conf : Confidence),
      (lruGet cache (generateGPTCacheKey input) now).1 = none →
      apiKey = true →
      modelCall input = .ok parsed →
      fieldTruthy parsed.confidence = true →
      fieldTruthy parsed.summary_of_sources = true →
      fieldTruthy parsed.reasoning = true →
      parseConfidence (parsed.confidence.getD "") = some conf →
      1 ≤ cache.maxSize →
      (verifyWithGPT apiKey modelCall cache input now).writes =
        [(generateGPTCacheKey input,
          ⟨conf, parsed.summary_of_sources.getD "",
            parsed.reasoning.getD ""⟩)] ∧
      (verifyWithGPT apiKey modelCall cache input now).output =
        ⟨conf, parsed.summary_of_sources.getD "",
          parsed.reasoning.getD ""⟩ ∧
      lruPeek (verifyWithGPT apiKey modelCall cache input now).cache
        (generateGPTCacheKey input) now =
        some ⟨conf, parsed.summary_of_sources.getD "",
          parsed.reasoning.getD ""⟩) ∧
    (∀ msg : String,
      (lruGet cache (generateGPTCacheKey input) now).1 = none →
      apiKey = true →
      modelCall input = .error msg →
      (verifyWithGPT apiKey modelCall cache input now).writes = [] ∧
      (verifyWithGPT apiKey modelCall cache input now).output =
        gptErrorFallback msg) ∧
    (∀ (parsed : ParsedResponse),
      (lruGet cache (generateGPTCacheKey input) now).1 = none →
      apiKey = true →
      modelCall input = .ok parsed →
      (fieldTruthy parsed.confidence = false ∨
        fieldTruthy parsed.summary_of_sources = false ∨
        fieldTruthy parsed.reasoning = false ∨
        parseConfidence (parsed.confidence.getD "") = none) →
      (verifyWithGPT apiKey modelCall cache input now).writes = []) ∧
    (∀ cached : GPTVerificationOutput,
      (lruGet cache (generateGPTCacheKey input) now).1 = some cached →
      (verifyWithGPT apiKey modelCall cache input now).writes = [] ∧
      (verifyWithGPT apiKey modelCall cache input now).output = cached) := by
  refine ⟨?_, ?_, ?_, ?_, ?_⟩
  · intro hmiss hkey
    subst hkey
    simp [verifyWithGPT, hmiss]
  · intro parsed conf hmiss hkey hok hf1 hf2 hf3 hconf hmax
    subst hkey
    have hv : verifyWithGPT true modelCall cache input now =
        ⟨⟨conf, parsed.summary_of_sources.getD "", parsed.reasoning.getD ""⟩,
          lruSet (lruGet cache (generateGPTCacheKey input) now).2
            (generateGPTCacheKey input)
            ⟨conf, parsed.summary_of_sources.getD "",
              parsed.reasoning.getD ""⟩ now,
          [(generateGPTCacheKey input,
            ⟨conf, parsed.summary_of_sources.getD "",
              parsed.reasoning.getD ""⟩)]⟩ := by
      simp [verifyWithGPT, hmiss, hok, hf1, hf2, hf3, hconf]
    rw [hv]
    refine ⟨rfl, rfl, ?_⟩
    exact lruPeek_lruSet_self _ _ _ now now
      (by rw [lruGet_snd_maxSize]; exact hmax)
      (by rw [lruGet_snd_ttl]; omega)
  · intro msg hmiss hkey herr
    subst hkey
    simp [verifyWithGPT, hmiss, herr]
  · intro parsed hmiss hkey hok hbad
    subst hkey
    rcases hbad with hb | hb | hb | hb
    · simp [verifyWithGPT, hmiss, hok, hb]
    · simp [verifyWithGPT, hmiss, hok, hb]
    · simp [verifyWithGPT, hmiss, hok, hb]
    · by_cases h1 : fieldTruthy parsed.confidence = true
      · by_cases h2 : fieldTruthy parsed.summary_of_sources = true
        · by_cases h3 : fieldTruthy parsed.reasoning = true
          · simp [verifyWithGPT, hmiss, hok, h1, h2, h3, hb]
          · simp [verifyWithGPT, hmiss, hok,
              (by simpa using h3 : fieldTruthy parsed.reasoning = false)]
        · simp [verifyWithGPT, hmiss, hok,
            (by simpa using h2 : fieldTruthy parsed.summary_of_sources = false)]
      · simp [verifyWithGPT, hmiss, hok,
          (by simpa using h1 : fieldTruthy parsed.confidence = false)]
  · intro cached hhit
    simp [verifyWithGPT, hhit]

/-- C9, witness: concrete miss on an empty cache with an unconfigured key
returns the mock result and writes nothing. -/
theorem claim9_gpt_cache_population_witness :
    (verifyWithGPT false (fun _ => Except.error "unused")
      gptVerificationCacheInit
      { paragraph_text := "t", paragraph_links := [], sources := [] }
      0).output = mockGPTOutput ∧
    (verifyWithGPT false (fun _ => Except.error "unused")
      gptVerificationCacheInit
      { paragraph_text := "t", paragraph_links := [], sources := [] }
      0).writes = [] :=
  (claim9_gpt_cache_population false (fun _ => Except.error "unused")
    gptVerificationCacheInit
    { paragraph_text := "t", paragraph_links := [], sources := [] } 0).1
    rfl rfl

/-! ## Helper lemmas: the `scrapeUrls` worker pool -/

theorem enum_length_eq (l : List α) : l.enum.length = l.length :=
  List.enumFrom_length

theorem stepPool_none (fetch : String → SourceContent) (s : PoolState)
    (w : Nat) (hw : s.workers[w]? = none) : stepPool fetch s w = s := by
  simp [stepPool, hw]

theorem stepPool_done (fetch : String → SourceContent) (s : PoolState)
    (w : Nat) (hw : s.workers[w]? = some WorkerState.done) :
    stepPool fetch s w = s := by
  simp [stepPool, hw]

theorem stepPool_idle_nil (fetch : String → SourceContent) (s : PoolState)
    (w : Nat) (hw : s.workers[w]? = some WorkerState.idle)
    (hq : s.queue = []) :
    stepPool fetch s w = { s with workers := s.workers.set w .done } := by
  simp [stepPool, hw, hq]

theorem stepPool_idle_cons (fetch : String → SourceContent) (s : PoolState)
    (w : Nat) (item : Nat × String) (rest : List (Nat × String))
    (hw : s.workers[w]? = some WorkerState.idle)
    (hq : s.queue = item :: rest) :
    stepPool fetch s w =
      { s with queue := rest,
               workers := s.workers.set w (.fetching item.2 item.1) } := by
  simp [stepPool, hw, hq]

theorem stepPool_fetching (fetch : String → SourceContent) (s : PoolState)
    (w : Nat) (u : String) (i : Nat)
    (hw : s.workers[w]? = some (WorkerState.fetching u i)) :
    stepPool fetch s w =
      { s with results := s.results.set i (some (fetch u)),
               workers := s.workers.set w .idle } := by
  simp [stepPool, hw]

theorem poolInv_init (fetch : String → SourceContent) (urls : List String) :
    PoolInv fetch (urls.take 5) (initPool urls) := by
  refine ⟨by simp [initPool], by simp [initPool], 0, Nat.zero_le _,
    by simp [initPool], ?_, ?_, ?_, ?_, ?_⟩
  · intro w i u hw
    simp only [initPool] at hw
    rw [List.getElem?_replicate] at hw
    split at hw
    · simp at hw
    · simp at hw
  · intro w w' i u u' hne hw
    simp only [initPool] at hw
    rw [List.getElem?_replicate] at hw
    split at hw
    · simp at hw
    · simp at hw
  · intro i hi _
    omega
  · intro i _ hi
    simp only [initPool]
    rw [List.getElem?_replicate, if_pos hi]
  · intro w hw
    simp only [initPool] at hw
    rw [List.getElem?_replicate] at hw
    split at hw
    · simp at hw
    · simp at hw

theorem poolInv_step (fetch : String → SourceContent) (limited : List String)
    (s : PoolState) (w : Nat) (hinv : PoolInv fetch limited s) :
    PoolInv fetch limited (stepPool fetch s w) := by
  obtain ⟨hrlen, hwlen, k, hk, hq, hfet, hdist, hwrit, hunproc, hdone⟩ := hinv
  cases hw : s.workers[w]? with
  | none =>
      rw [stepPool_none fetch s w hw]
      exact ⟨hrlen, hwlen, k, hk, hq, hfet, hdist, hwrit, hunproc, hdone⟩
  | some st =>
    have hwlt : w < s.workers.length := (List.getElem?_eq_some.mp hw).1
    cases st with
    | done =>
        rw [stepPool_done fetch s w hw]
        exact ⟨hrlen, hwlen, k, hk, hq, hfet, hdist, hwrit, hunproc, hdone⟩
    | idle =>
      cases hqe : s.queue with
      | nil =>
          rw [stepPool_idle_nil fetch s w hw hqe]
          refine ⟨hrlen, by simp [hwlen], k, hk, hq, ?_, ?_, ?_, hunproc, ?_⟩
          · intro w' i u hw'
            by_cases hww : w' = w
            · subst hww
              rw [List.getElem?_set_self hwlt] at hw'
              simp at hw'
            · rw [List.getElem?_set_ne (Ne.symm hww)] at hw'
              exact hfet w' i u hw'
          · intro w1 w2 i u1 u2 hne h1 h2
            by_cases h1w : w1 = w
            · subst h1w
              rw [List.getElem?_set_self hwlt] at h1
              simp at h1
            · by_cases h2w : w2 = w
              · subst h2w
                rw [List.getElem?_set_self hwlt] at h2
                simp at h2
              · rw [List.getElem?_set_ne (Ne.symm h1w)] at h1
                rw [List.getElem?_set_ne (Ne.symm h2w)] at h2
                exact hdist w1 w2 i u1 u2 hne h1 h2
          · intro i hi hnone
            apply hwrit i hi
            intro w' u hold
            by_cases hww : w' = w
            · subst hww
              rw [hw] at hold
              simp at hold
            · exact hnone w' u
                (by rw [List.getElem?_set_ne (Ne.symm hww)]; exact hold)
          · intro w' hw'
            by_cases hww : w' = w
            · exact hqe
            · rw [List.getElem?_set_ne (Ne.symm hww)] at hw'
              exact hdone w' hw'
      | cons item rest =>
          rw [stepPool_idle_cons fetch s w item rest hw hqe]
          have hklt : k < limited.length := by
            by_contra hge
            rw [hq, List.drop_eq_nil_of_le
              (by rw [enum_length_eq]; omega)] at hqe
            cases hqe
          have henl : k < limited.enum.length := by
            rw [enum_length_eq]
            exact hklt
          have hqq : limited.enum.get ⟨k, henl⟩ :: limited.enum.drop (k + 1) =
              item :: rest := by
            rw [List.get_eq_getElem, ← List.drop_eq_getElem_cons henl, ← hq]
            exact hqe
          have hitem : item = limited.enum.get ⟨k, henl⟩ :=
            ((List.cons.injEq _ _ _ _).mp hqq).1.symm
          have hrest : rest = limited.enum.drop (k + 1) :=
            ((List.cons.injEq _ _ _ _).mp hqq).2.symm
          have henumk : limited.enum.get ⟨k, henl⟩ =
              (k, limited.get ⟨k, hklt⟩) := by
            rw [List.get_eq_getElem, List.get_eq_getElem]
            show (limited.enumFrom 0)[k] = _
            rw [List.getElem_enumFrom]
            simp
          have hitem1 : item.1 = k := by rw [hitem, henumk]
          have hitem2 : item.2 = limited.get ⟨k, hklt⟩ := by
            rw [hitem, henumk]
          refine ⟨hrlen, by simp [hwlen], k + 1, hklt, hrest, ?_, ?_, ?_,
            ?_, ?_⟩
          · intro w' i u hw'
            by_cases hww : w' = w
            · subst hww
              rw [List.getElem?_set_self hwlt] at hw'
              simp only [Option.some.injEq, WorkerState.fetching.injEq]
                at hw'
              obtain ⟨hu, hi⟩ := hw'
              refine ⟨by omega, ?_, ?_⟩
              · rw [← hu, ← hi, hitem1, hitem2]
                exact List.getElem?_eq_getElem hklt
              · rw [← hi, hitem1]
                exact hunproc k (Nat.le_refl k) hklt
            · rw [List.getElem?_set_ne (Ne.symm hww)] at hw'
              obtain ⟨h1, h2, h3⟩ := hfet w' i u hw'
              exact ⟨by omega, h2, h3⟩
          · intro w1 w2 i u1 u2 hne h1 h2
            by_cases h1w : w1 = w
            · subst h1w
              rw [List.getElem?_set_self hwlt] at h1
              simp only [Option.some.injEq, WorkerState.fetching.injEq]
                at h1
              have hik : i = k := by rw [← h1.2, hitem1]
              rw [List.getElem?_set_ne (Ne.symm (fun he => hne he.symm))]
                at h2
              obtain ⟨hlt, -, -⟩ := hfet w2 i u2 h2
              omega
            · by_cases h2w : w2 = w
              · subst h2w
                rw [List.getElem?_set_self hwlt] at h2
                simp only [Option.some.injEq, WorkerState.fetching.injEq]
                  at h2
                have hik : i = k := by rw [← h2.2, hitem1]
                rw [List.getElem?_set_ne (Ne.symm h1w)] at h1
                obtain ⟨hlt, -, -⟩ := hfet w1 i u1 h1
                omega
              · rw [List.getElem?_set_ne (Ne.symm h1w)] at h1
                rw [List.getElem?_set_ne (Ne.symm h2w)] at h2
                exact hdist w1 w2 i u1 u2 hne h1 h2
          · intro i2 hi2 hnone
            by_cases hik : i2 = k
            · exfalso
              apply hnone w item.2
              rw [List.getElem?_set_self hwlt, hik, ← hitem1]
            · apply hwrit i2 (by omega)
              intro w' u' hold
              by_cases hww : w' = w
              · subst hww
                rw [hw] at hold
                simp at hold
              · exact hnone w' u'
                  (by rw [List.getElem?_set_ne (Ne.symm hww)]; exact hold)
          · intro i2 h1 h2
            exact hunproc i2 (by omega) h2
          · intro w' hw'
            by_cases hww : w' = w
            · subst hww
              rw [List.getElem?_set_self hwlt] at hw'
              simp at hw'
            · rw [List.getElem?_set_ne (Ne.symm hww)] at hw'
              exact absurd (hdone w' hw') (by rw [hqe]; simp)
    | fetching u i =>
        rw [stepPool_fetching fetch s w u i hw]
        obtain ⟨hik, hu, hri⟩ := hfet w i u hw
        have hilt : i < s.results.length := (List.getElem?_eq_some.mp hri).1
        refine ⟨by simp [hrlen], by simp [hwlen], k, hk, hq, ?_, ?_, ?_,
          ?_, ?_⟩
        · intro w' i' u' hw'
          by_cases hww : w' = w
          · subst hww
            rw [List.getElem?_set_self hwlt] at hw'
            simp at hw'
          · rw [List.getElem?_set_ne (Ne.symm hww)] at hw'
            obtain ⟨h1, h2, h3⟩ := hfet w' i' u' hw'
            have hii : i' ≠ i := by
              intro hee
              exact hdist w' w i' u' u hww hw' (by rw [hw, hee])
            exact ⟨h1, h2,
              by rw [List.getElem?_set_ne (Ne.symm hii)]; exact h3⟩
        · intro w1 w2 i2 u1 u2 hne h1 h2
          by_cases h1w : w1 = w
          · subst h1w
            rw [List.getElem?_set_self hwlt] at h1
            simp at h1
          · by_cases h2w : w2 = w
            · subst h2w
              rw [List.getElem?_set_self hwlt] at h2
              simp at h2
            · rw [List.getElem?_set_ne (Ne.symm h1w)] at h1
              rw [List.getElem?_set_ne (Ne.symm h2w)] at h2
              exact hdist w1 w2 i2 u1 u2 hne h1 h2
        · intro i2 hi2 hnone
          by_cases hii : i2 = i
          · subst hii
            rw [List.getElem?_set_self hilt, hu]
            rfl
          · rw [List.getElem?_set_ne (fun he => hii he.symm)]
            apply hwrit i2 hi2
            intro w' u' hold
            by_cases hww : w' = w
            · subst hww
              rw [hw] at hold
              simp only [Option.some.injEq, WorkerState.fetching.injEq]
                at hold
              exact hii hold.2.symm
            · exact hnone w' u'
                (by rw [List.getElem?_set_ne (Ne.symm hww)]; exact hold)
        · intro i2 h1 h2
          have hii : i ≠ i2 := by omega
          rw [List.getElem?_set_ne hii]
          exact hunproc i2 h1 h2
        · intro w' hw'
          by_cases hww : w' = w
          · subst hww
            rw [List.getElem?_set_self hwlt] at hw'
            simp at hw'
          · rw [List.getElem?_set_ne (Ne.symm hww)] at hw'
            exact hdone w' hw'

theorem poolInv_runPool (fetch : String → SourceContent)
    (limited : List String) :
    ∀ (schedule : List Nat) (s : PoolState), PoolInv fetch limited s →
      PoolInv fetch limited (runPool fetch s schedule) := by
  intro schedule
  induction schedule with
  | nil => intro s hinv; exact hinv
  | cons w rest ih =>
      intro s hinv
      exact ih (stepPool fetch s w) (poolInv_step fetch limited s w hinv)

theorem poolInv_final (fetch : String → SourceContent)
    (limited : List String) (s : PoolState) (hinv : PoolInv fetch limited s)
    (hall : allWorkersDone s = true) :
    s.results = limited.map (fun u => some (fetch u)) := by
  obtain ⟨hrlen, hwlen, k, hk, hq, hfet, hdist, hwrit, hunproc, hdone⟩ := hinv
  have hnofetch : ∀ (w' i : Nat) (u : String),
      s.workers[w']? ≠ some (WorkerState.fetching u i) := by
    intro w' i u hcon
    have hmem := List.getElem?_mem hcon
    have := List.all_eq_true.mp hall _ hmem
    simp at this
  rcases Nat.eq_zero_or_pos limited.length with hn | hn
  · have h1 : limited = [] := List.length_eq_zero.mp hn
    have h2 : s.results = [] := List.length_eq_zero.mp (by rw [hrlen, hn])
    rw [h1, h2]
    rfl
  · have hwpos : 0 < s.workers.length := by
      rw [hwlen]
      omega
    obtain ⟨st, hst⟩ : ∃ st, s.workers[0]? = some st :=
      ⟨s.workers.get ⟨0, hwpos⟩, List.getElem?_eq_getElem hwpos⟩
    have hstdone : st = .done := by
      have hmem := List.getElem?_mem hst
      have := List.all_eq_true.mp hall _ hmem
      simpa using this
    have hqnil : s.queue = [] := hdone 0 (hstdone ▸ hst)
    have hkn : k = limited.length := by
      have hdnil : limited.enum.drop k = [] := by rw [← hq, hqnil]
      have hlen := congrArg List.length hdnil
      rw [List.length_drop, enum_length_eq] at hlen
      simp at hlen
      omega
    apply List.ext_getElem?
    intro i
    by_cases hi : i < limited.length
    · rw [hwrit i (by omega) (fun w' u => hnofetch w' i u),
        List.getElem?_map, List.getElem?_eq_getElem hi]
      rfl
    · rw [List.getElem?_eq_none (by rw [hrlen]; omega),
        List.getElem?_eq_none (by rw [List.length_map]; omega)]

/-! ## Claim C5: `scrapeUrls` caps input and preserves order -/

/-- C5, confirmed: for every URL list, fetch function and scheduler
interleaving under which the pool terminates (every worker retired), the
results array equals the first five input URLs mapped through the fetch —
the i-th slot holds the `SourceContent` of the i-th capped URL, whatever
order the workers completed in. -/
theorem claim5_scrape_urls_pool (urls : List String)
    (fetch : String → SourceContent) (schedule : List Nat)
    (hdone : allWorkersDone (runPool fetch (initPool urls) schedule) =
      true) :
    (runPool fetch (initPool urls) schedule).results =
      (urls.take 5).map (fun u => some (fetch u)) :=
  poolInv_final fetch (urls.take 5) _
    (poolInv_runPool fetch (urls.take 5) schedule (initPool urls)
      (poolInv_init fetch urls))
    hdone

/-- C5, witness: two URLs, two workers, an interleaved schedule in which
worker 1 finishes its fetch before worker 0; the results still come back
in input order. -/
theorem claim5_scrape_urls_pool_witness :
    (runPool (fun u => ⟨u, "t", "c", .unknown, none⟩)
      (initPool ["https://a.test", "https://b.test"])
      [0, 1, 1, 0, 0, 1]).results =
      (["https://a.test", "https://b.test"].take 5).map
        (fun u => some ((fun u => (⟨u, "t", "c", .unknown,
          none⟩ : SourceContent)) u)) :=
  claim5_scrape_urls_pool ["https://a.test", "https://b.test"]
    (fun u => ⟨u, "t", "c", .unknown, none⟩) [0, 1, 1, 0, 0, 1] (by decide)

/-! ## Claim C10: `scrapeUrl` caches error and mock results -/

/-- C10, confirmed: on a cache miss, a failed fetch stores the
error-bearing `SourceContent` under the normalized URL key, and the
unconfigured-ScrapingBee mock path stores its mock (error-tagged) entry
likewise; a later `scrapeUrl` of any URL with the same normalized key,
within the TTL, returns that error/mock entry from the cache and performs
no fetch. -/
theorem claim10_scrape_error_caching (parseOk : String → Bool)
    (normalize : String → String) (credOf : String → Credibility)
    (fetchOutcome : String → FetchOutcome)
    (cache : LruCache SourceContent) (url url2 : String) (now now2 : Nat)
    (hmax : 1 ≤ cache.maxSize)
    (hparse : parseOk url = true) (hparse2 : parseOk url2 = true)
    (hnorm : normalize url2 = normalize url)
    (hmiss : (lruGet cache (normalize url) now).1 = none)
    (httl : now2 - now ≤ cache.ttl) :
    (∀ msg : String, fetchOutcome url = .thrown msg →
      (scrapeUrl true parseOk normalize credOf fetchOutcome cache url
        now).result = ⟨url, url, "", credOf url, some msg⟩ ∧
      (scrapeUrl true parseOk normalize credOf fetchOutcome
        (scrapeUrl true parseOk normalize credOf fetchOutcome cache url
          now).cache url2 now2).result =
        ⟨url, url, "", credOf url, some msg⟩ ∧
      (scrapeUrl true parseOk normalize credOf fetchOutcome
        (scrapeUrl true parseOk normalize credOf fetchOutcome cache url
          now).cache url2 now2).fetchCalls = 0) ∧
    ((scrapeUrl false parseOk normalize credOf fetchOutcome cache url
        now).result = ⟨url, "Mock Title - ScrapingBee not configured",
          "Mock content for URL: " ++ url, credOf url,
          some "ScrapingBee API key not configured"⟩ ∧
      (scrapeUrl false parseOk normalize credOf fetchOutcome
        (scrapeUrl false parseOk normalize credOf fetchOutcome cache url
          now).cache url2 now2).result =
        ⟨url, "Mock Title - ScrapingBee not configured",
          "Mock content for URL: " ++ url, credOf url,
          some "ScrapingBee API key not configured"⟩ ∧
      (scrapeUrl false parseOk normalize credOf fetchOutcome
        (scrapeUrl false parseOk normalize credOf fetchOutcome cache url
          now).cache url2 now2).fetchCalls = 0) := by
  constructor
  · intro msg hfetch
    have h1 : scrapeUrl true parseOk normalize credOf fetchOutcome cache
        url now =
        ⟨⟨url, url, "", credOf url, some msg⟩,
          lruSet (lruGet cache (normalize url) now).2 (normalize url)
            ⟨url, url, "", credOf url, some msg⟩ now, 1⟩ := by
      simp [scrapeUrl, hparse, hmiss, hfetch]
    have hget2 : (lruGet (lruSet (lruGet cache (normalize url) now).2
        (normalize url) ⟨url, url, "", credOf url, some msg⟩ now)
        (normalize url2) now2).1 =
        some ⟨url, url, "", credOf url, some msg⟩ := by
      rw [hnorm]
      exact lruGet_lruSet_self _ _ _ now now2
        (by rw [lruGet_snd_maxSize]; exact hmax)
        (by rw [lruGet_snd_ttl]; omega)
    refine ⟨by rw [h1], ?_, ?_⟩
    · rw [h1]
      simp [scrapeUrl, hparse2, hget2]
    · rw [h1]
      simp [scrapeUrl, hparse2, hget2]
  · have h1 : scrapeUrl false parseOk normalize credOf fetchOutcome cache
        url now =
        ⟨⟨url, "Mock Title - ScrapingBee not configured",
            "Mock content for URL: " ++ url, credOf url,
            some "ScrapingBee API key not configured"⟩,
          lruSet (lruGet cache (normalize url) now).2 (normalize url)
            ⟨url, "Mock Title - ScrapingBee not configured",
              "Mock content for URL: " ++ url, credOf url,
              some "ScrapingBee API key not configured"⟩ now, 0⟩ := by
      simp [scrapeUrl, hparse, hmiss]
    have hget2 : (lruGet (lruSet (lruGet cache (normalize url) now).2
        (normalize url)
        ⟨url, "Mock Title - ScrapingBee not configured",
          "Mock content for URL: " ++ url, credOf url,
          some "ScrapingBee API key not configured"⟩ now)
        (normalize url2) now2).1 =
        some ⟨url, "Mock Title - ScrapingBee not configured",
          "Mock content for URL: " ++ url, credOf url,
          some "ScrapingBee API key not configured"⟩ := by
      rw [hnorm]
      exact lruGet_lruSet_self _ _ _ now now2
        (by rw [lruGet_snd_maxSize]; exact hmax)
        (by rw [lruGet_snd_ttl]; omega)
    refine ⟨by rw [h1], ?_, ?_⟩
    · rw [h1]
      simp [scrapeUrl, hparse2, hget2]
    · rw [h1]
      simp [scrapeUrl, hparse2, hget2]

/-- C10, witness: a fetch that throws `"HTTP 500"`; the second call 10 ms
later returns the cached error entry with zero fetches. -/
theorem claim10_scrape_error_caching_witness :
    (scrapeUrl true (fun _ => true) (fun s => s) (fun _ => .unknown)
      (fun _ => .thrown "HTTP 500") sourceContentCacheInit
      "https://a.test" 0).result =
      ⟨"https://a.test", "https://a.test", "", .unknown,
        some "HTTP 500"⟩ ∧
    (scrapeUrl true (fun _ => true) (fun s => s) (fun _ => .unknown)
      (fun _ => .thrown "HTTP 500")
      (scrapeUrl true (fun _ => true) (fun s => s) (fun _ => .unknown)
        (fun _ => .thrown "HTTP 500") sourceContentCacheInit
        "https://a.test" 0).cache "https://a.test" 10).result =
      ⟨"https://a.test", "https://a.test", "", .unknown,
        some "HTTP 500"⟩ ∧
    (scrapeUrl true (fun _ => true) (fun s => s) (fun _ => .unknown)
      (fun _ => .thrown "HTTP 500")
      (scrapeUrl true (fun _ => true) (fun s => s) (fun _ => .unknown)
        (fun _ => .thrown "HTTP 500") sourceContentCacheInit
        "https://a.test" 0).cache "https://a.test" 10).fetchCalls = 0 :=
  (claim10_scrape_error_caching (fun _ => true) (fun s => s)
    (fun _ => .unknown) (fun _ => .thrown "HTTP 500")
    sourceContentCacheInit "https://a.test" "https://a.test" 0 10
    (by decide) rfl rfl rfl rfl (by decide)).1 "HTTP 500" rfl

/-! ## Claim C8: heading paragraphs -/

/-- C8, confirmed: for a heading paragraph, `verifyParagraph` invokes
neither the source fetcher nor the engine (both call counts are zero),
stores the synthetic result — confidence `high`, empty `link_digests` —
through the ordinary `storeResult` path (the update notification is the
first event fired and the result is read back from the store), and the
job ends `completed`. -/
theorem claim8_heading_paragraph (scrape : List String → List SourceContent)
    (gpt : GPTVerificationInput → GPTVerificationOutput) (s : Storage)
    (docId : String) (p : Paragraph) (now : Nat)
    (hheading : p.isHeading = true)
    (hjob : ∃ j, getJob s docId p.id = some j) :
    (verifyParagraph scrape gpt s docId p now).scrapeCalls = 0 ∧
    (verifyParagraph scrape gpt s docId p now).gptCalls = 0 ∧
    (verifyParagraph scrape gpt s docId p now).result =
      headingResultFor docId p.id ∧
    (headingResultFor docId p.id).confidence = .high ∧
    (headingResultFor docId p.id).link_digests = [] ∧
    (verifyParagraph scrape gpt s docId p now).events.head? =
      some (Event.update (headingResultFor docId p.id)) ∧
    getResult (verifyParagraph scrape gpt s docId p now).store docId p.id =
      some (headingResultFor docId p.id) ∧
    (getJob (verifyParagraph scrape gpt s docId p now).store docId
      p.id).map (fun j => j.status) = some JobStatus.completed := by
  obtain ⟨j, hj⟩ := hjob
  have hv : verifyParagraph scrape gpt s docId p now =
      ⟨(storeResult (updateJobStatus s docId p.id .in_progress now)
          (headingResultFor docId p.id) now).1,
        (storeResult (updateJobStatus s docId p.id .in_progress now)
          (headingResultFor docId p.id) now).2,
        headingResultFor docId p.id, 0, 0⟩ := by
    unfold verifyParagraph
    rw [if_pos hheading]
  have hj1 : getJob (updateJobStatus s docId p.id .in_progress now) docId
      p.id = some { j with status := .in_progress, updated_at := now } :=
    getJob_updateJobStatus s docId p.id .in_progress now hj
  refine ⟨by rw [hv], by rw [hv], by rw [hv], rfl, rfl, ?_, ?_, ?_⟩
  · rw [hv]
    rw [show (storeResult (updateJobStatus s docId p.id .in_progress now)
        (headingResultFor docId p.id) now).2 = _ from storeResult_events _ _ _]
    rfl
  · rw [hv]
    exact getResult_storeResult _ (headingResultFor docId p.id) now
  · rw [hv]
    have h2 := @getJob_storeResult_self
      (updateJobStatus s docId p.id .in_progress now)
      (headingResultFor docId p.id) now
      { j with status := JobStatus.in_progress, updated_at := now } (by
        rw [show (headingResultFor docId p.id).doc_id = docId from rfl,
          show (headingResultFor docId p.id).paragraph_id = p.id from rfl]
        exact hj1)
    rw [show (headingResultFor docId p.id).doc_id = docId from rfl,
      show (headingResultFor docId p.id).paragraph_id = p.id from rfl] at h2
    rw [h2]
    rfl

/-- C8, witness: a concrete heading paragraph with oracles that would
return sources and a low-confidence output if consulted — they are not. -/
theorem claim8_heading_paragraph_witness :
    (verifyParagraph (fun _ => [])
      (fun _ => { confidence := .low, summary_of_sources := "s",
                  reasoning := "r" })
      (createJobs Storage.empty "d"
        [{ id := 1, order := 1, text := "T", links := ["https://a.test"],
           isHeading := true }] 0).1
      "d" { id := 1, order := 1, text := "T", links := ["https://a.test"],
            isHeading := true } 7).scrapeCalls = 0 ∧
    (verifyParagraph (fun _ => [])
      (fun _ => { confidence := .low, summary_of_sources := "s",
                  reasoning := "r" })
      (createJobs Storage.empty "d"
        [{ id := 1, order := 1, text := "T", links := ["https://a.test"],
           isHeading := true }] 0).1
      "d" { id := 1, order := 1, text := "T", links := ["https://a.test"],
            isHeading := true } 7).gptCalls = 0 :=
  ⟨(claim8_heading_paragraph (fun _ => [])
      (fun _ => { confidence := .low, summary_of_sources := "s",
                  reasoning := "r" })
      (createJobs Storage.empty "d"
        [{ id := 1, order := 1, text := "T", links := ["https://a.test"],
           isHeading := true }] 0).1
      "d" { id := 1, order := 1, text := "T", links := ["https://a.test"],
            isHeading := true } 7 rfl
      ⟨{ doc_id := "d",
         paragraph := { id := 1, order := 1, text := "T",
                        links := ["https://a.test"], isHeading := true },
         status := .pending, created_at := 0, updated_at := 0 },
        by decide⟩).1,
   (claim8_heading_paragraph (fun _ => [])
      (fun _ => { confidence := .low, summary_of_sources := "s",
                  reasoning := "r" })
      (createJobs Storage.empty "d"
        [{ id := 1, order := 1, text := "T", links := ["https://a.test"],
           isHeading := true }] 0).1
      "d" { id := 1, order := 1, text := "T", links := ["https://a.test"],
            isHeading := true } 7 rfl
      ⟨{ doc_id := "d",
         paragraph := { id := 1, order := 1, text := "T",
                        links := ["https://a.test"], isHeading := true },
         status := .pending, created_at := 0, updated_at := 0 },
        by decide⟩).2.1⟩

/-! ## Claim C7: `cancelVerification` -/

/-- C7, confirmed: `cancelVerification` fails every still-pending job with
the cancellation message `"Cancelled by user"` recorded as its error,
leaves every other job (in particular in-progress, completed and failed
ones) bit-for-bit unchanged, leaves the results and every other document
untouched, fires no completion while an in-progress job remains, and the
document's completion fires exactly once when the remaining in-progress
jobs each later resolve with one terminal call. -/
theorem claim7_cancel_verification (s : Storage) (d : String) (now : Nat)
    (hnd : ((getJobs s d).map fun j => j.paragraph.id).Nodup) :
    getJobs (cancelVerification s d now).1 d =
        (getJobs s d).map (cancelTransform now) ∧
    (cancelVerification s d now).1.results = s.results ∧
    (∀ d', d' ≠ d → getJobs (cancelVerification s d now).1 d' =
      getJobs s d') ∧
    ((∃ j ∈ getJobs s d, j.status = .in_progress) →
      (cancelVerification s d now).2 =
        ((getJobs s d).filter (fun j => j.status == .pending)).map
          (fun j => Event.error d j.paragraph.id "Cancelled by user")) ∧
    (∀ ops : List StoreOp,
      (∃ j ∈ getJobs s d, j.status = .in_progress) →
      (∀ op ∈ ops, op.docId = d) →
      ((ops.map StoreOp.paragraphId).Perm
        (((getJobs s d).filter fun j => j.status == .in_progress).map
          fun j => j.paragraph.id)) →
      completeCount d ((cancelVerification s d now).2 ++
        (runOps (cancelVerification s d now).1 ops).2) = 1) := by
  obtain ⟨hjobs, hres, hne, hev⟩ :=
    cancelGo_spec d now (getJobs s d) s [] (by simp) (by simpa using hnd)
  have hjobs' : getJobs (cancelVerification s d now).1 d =
      (getJobs s d).map (cancelTransform now) := by
    simpa [cancelVerification] using hjobs
  have hev' : (∃ j ∈ getJobs s d, j.status = .in_progress) →
      (cancelVerification s d now).2 =
        ((getJobs s d).filter (fun j => j.status == .pending)).map
          (fun j => Event.error d j.paragraph.id "Cancelled by user") := by
    intro hip
    simpa [cancelVerification] using hev (by simpa using hip)
  refine ⟨hjobs', hres, hne, hev', ?_⟩
  intro ops hip hdoc hperm
  have hcnt : completeCount d ((cancelVerification s d now).2 ++
      (runOps (cancelVerification s d now).1 ops).2) =
      completeCount d (cancelVerification s d now).2 +
        completeCount d (runOps (cancelVerification s d now).1 ops).2 := by
    unfold completeCount
    exact List.count_append _ _ _
  rw [hcnt, hev' hip, completeCount_error_events]
  obtain ⟨jw, hjwmem, hjw⟩ := hip
  have hidmem : jw.paragraph.id ∈
      (((getJobs s d).filter fun j => j.status == .in_progress).map
        fun j => j.paragraph.id) :=
    List.mem_map.mpr ⟨jw, List.mem_filter.mpr ⟨hjwmem, by simp [hjw]⟩, rfl⟩
  have hrun : completeCount d
      (runOps (cancelVerification s d now).1 ops).2 = 1 := by
    apply completeCount_runOps
    · rw [hjobs']
      intro hnil
      exact absurd (List.map_eq_nil_iff.mp hnil)
        (List.ne_nil_of_mem hjwmem)
    · rw [hjobs', List.map_map]
      have : ((fun j => j.paragraph.id) ∘ cancelTransform now) =
          fun j : VerificationJob => (cancelTransform now j).paragraph.id :=
        rfl
      rw [this]
      have heq : (getJobs s d).map
          (fun j => (cancelTransform now j).paragraph.id) =
          (getJobs s d).map (fun j => j.paragraph.id) := by
        apply List.map_congr_left
        intro a _
        unfold cancelTransform
        by_cases hpa : (a.status == JobStatus.pending) = true
        · rw [if_pos hpa]
        · rw [if_neg hpa]
      rw [heq]
      exact hnd
    · exact hdoc
    · rw [hjobs', nonterminal_ids_cancelTransform]
      exact hperm
    · intro hnil
      rw [hnil] at hperm
      have := hperm.symm.mem_iff.mp hidmem
      simp at this
  rw [hrun]

/-- C7, witness: the spec scenario — two pending jobs and one in-progress
job; cancel fails the two pending jobs, and completion fires exactly once
when the in-progress job later stores its result. -/
theorem claim7_cancel_verification_witness :
    completeCount "d"
      ((cancelVerification (updateJobStatus (createJobs Storage.empty "d"
          [{ id := 1, order := 1, text := "a", links := [] },
           { id := 2, order := 2, text := "b", links := [] },
           { id := 3, order := 3, text := "c", links := [] }] 0).1
          "d" 3 .in_progress 1) "d" 5).2 ++
        (runOps (cancelVerification (updateJobStatus (createJobs
            Storage.empty "d"
            [{ id := 1, order := 1, text := "a", links := [] },
             { id := 2, order := 2, text := "b", links := [] },
             { id := 3, order := 3, text := "c", links := [] }] 0).1
            "d" 3 .in_progress 1) "d" 5).1
          [StoreOp.res { doc_id := "d", paragraph_id := 3,
                         confidence := .medium,
                         summary_of_sources := "1/2 support",
                         reasoning := "r", link_digests := [] } 9]).2) = 1 :=
  (claim7_cancel_verification (updateJobStatus (createJobs Storage.empty "d"
      [{ id := 1, order := 1, text := "a", links := [] },
       { id := 2, order := 2, text := "b", links := [] },
       { id := 3, order := 3, text := "c", links := [] }] 0).1
      "d" 3 .in_progress 1) "d" 5 (by decide)).2.2.2.2
    [StoreOp.res { doc_id := "d", paragraph_id := 3, confidence := .medium,
                   summary_of_sources := "1/2 support", reasoning := "r",
                   link_digests := [] } 9]
    (by decide) (by decide) (by decide)

/-! ## Claim C4: `verifyWithRetry` -/

/-- C4, counterexample: the claim says `verifyWithRetry` waits 1s then 2s
between attempts; but the backoff `setTimeout` sits only in the catch
block, and a retry triggered by a resolved error-flagged low-confidence
fallback (the only kind of failure `verifyWithGPT` can actually produce,
since it catches its own errors) proceeds immediately: three attempts,
zero sleeps. -/
theorem claim4_retry_counterexample :
    (verifyWithRetry (fun _ => Except.ok
        { confidence := .low, summary_of_sources := "s",
          reasoning := "Error during verification: boom" }) 2).attemptsMade =
      3 ∧
    (verifyWithRetry (fun _ => Except.ok
        { confidence := .low, summary_of_sources := "s",
          reasoning := "Error during verification: boom" }) 2).sleeps = [] := by
  decide

/-- C4, amended: with the default `maxRetries = 2`, `verifyWithRetry`
makes between 1 and 3 attempts; it retries only after a failed attempt (a
rejection or an error-flagged low-confidence fallback); a backoff sleep of
`2^k·1000` ms occurs exactly after attempt `k` when that attempt **threw**
and a retry follows — a fallback-triggered retry sleeps not at all; and
when all three attempts fail it returns the low-confidence give-up result
whose reasoning is the final error's message (with a fixed stand-in when
that message is empty). -/
theorem claim4_retry_amended
    (attempts : Nat → Except String GPTVerificationOutput) :
    (verifyWithRetry attempts 2).attemptsMade ≤ 3 ∧
    1 ≤ (verifyWithRetry attempts 2).attemptsMade ∧
    (∀ k : Nat, k + 1 < (verifyWithRetry attempts 2).attemptsMade →
      attemptFails (attempts k) = true) ∧
    ((verifyWithRetry attempts 2).sleeps =
      (if 2 ≤ (verifyWithRetry attempts 2).attemptsMade ∧
          isThrown (attempts 0) = true then [1000] else []) ++
      (if 3 ≤ (verifyWithRetry attempts 2).attemptsMade ∧
          isThrown (attempts 1) = true then [2000] else [])) ∧
    ((∀ k, k < 3 → attemptFails (attempts k) = true) →
      (verifyWithRetry attempts 2).output =
        exhaustedOutput (some (finalMessage (attempts 2)))) := by
  cases h0 : attempts 0 with
  | ok r0 =>
      by_cases hacc0 : retryAccepts r0 = true
      · have ht : verifyWithRetry attempts 2 = ⟨r0, [], 1⟩ := by
          simp [verifyWithRetry, verifyWithRetryLoop, h0, hacc0]
        rw [ht]
        refine ⟨by simp, by simp, ?_, by simp, ?_⟩
        · intro k hk
          simp at hk
        · intro hf
          have := hf 0 (by omega)
          rw [h0] at this
          simp [attemptFails, hacc0] at this
      · cases h1 : attempts 1 with
        | ok r1 =>
            by_cases hacc1 : retryAccepts r1 = true
            · have ht : verifyWithRetry attempts 2 = ⟨r1, [], 2⟩ := by
                simp [verifyWithRetry, verifyWithRetryLoop, h0, hacc0, h1,
                  hacc1]
              rw [ht]
              refine ⟨by simp, by simp, ?_, by simp [h0, isThrown], ?_⟩
              · intro k hk
                simp at hk
                have hk0 : k = 0 := by omega
                subst hk0
                rw [h0]
                simp [attemptFails, hacc0]
              · intro hf
                have := hf 1 (by omega)
                rw [h1] at this
                simp [attemptFails, hacc1] at this
            · cases h2 : attempts 2 with
              | ok r2 =>
                  by_cases hacc2 : retryAccepts r2 = true
                  · have ht : verifyWithRetry attempts 2 = ⟨r2, [], 3⟩ := by
                      simp [verifyWithRetry, verifyWithRetryLoop, h0, hacc0,
                        h1, hacc1, h2, hacc2]
                    rw [ht]
                    refine ⟨by simp, by simp, ?_,
                      by simp [h0, h1, isThrown], ?_⟩
                    · intro k hk
                      simp at hk
                      have hk01 : k = 0 ∨ k = 1 := by omega
                      rcases hk01 with hk0 | hk1
                      · subst hk0
                        rw [h0]
                        simp [attemptFails, hacc0]
                      · subst hk1
                        rw [h1]
                        simp [attemptFails, hacc1]
                    · intro hf
                      have := hf 2 (by omega)
                      rw [h2] at this
                      simp [attemptFails, hacc2] at this
                  · have ht : verifyWithRetry attempts 2 =
                        ⟨exhaustedOutput (some r2.reasoning), [], 3⟩ := by
                      simp [verifyWithRetry, verifyWithRetryLoop, h0, hacc0,
                        h1, hacc1, h2, hacc2]
                    rw [ht]
                    refine ⟨by simp, by simp, ?_,
                      by simp [h0, h1, isThrown], ?_⟩
                    · intro k hk
                      simp at hk
                      have hk01 : k = 0 ∨ k = 1 := by omega
                      rcases hk01 with hk0 | hk1
                      · subst hk0
                        rw [h0]
                        simp [attemptFails, hacc0]
                      · subst hk1
                        rw [h1]
                        simp [attemptFails, hacc1]
                    · intro _
                      simp [finalMessage]
              | error m2 =>
                  have ht : verifyWithRetry attempts 2 =
                      ⟨exhaustedOutput (some m2), [], 3⟩ := by
                    simp [verifyWithRetry, verifyWithRetryLoop, h0, hacc0,
                      h1, hacc1, h2]
                  rw [ht]
                  refine ⟨by simp, by simp, ?_,
                    by simp [h0, h1, isThrown], ?_⟩
                  · intro k hk
                    simp at hk
                    have hk01 : k = 0 ∨ k = 1 := by omega
                    rcases hk01 with hk0 | hk1
                    · subst hk0
                      rw [h0]
                      simp [attemptFails, hacc0]
                    · subst hk1
                      rw [h1]
                      simp [attemptFails, hacc1]
                  · intro _
                    simp [finalMessage]
        | error m1 =>
            cases h2 : attempts 2 with
            | ok r2 =>
                by_cases hacc2 : retryAccepts r2 = true
                · have ht : verifyWithRetry attempts 2 = ⟨r2, [2000], 3⟩ := by
                    simp [verifyWithRetry, verifyWithRetryLoop, h0, hacc0,
                      h1, h2, hacc2]
                  rw [ht]
                  refine ⟨by simp, by simp, ?_,
                    by simp [h0, h1, isThrown], ?_⟩
                  · intro k hk
                    simp at hk
                    have hk01 : k = 0 ∨ k = 1 := by omega
                    rcases hk01 with hk0 | hk1
                    · subst hk0
                      rw [h0]
                      simp [attemptFails, hacc0]
                    · subst hk1
                      rw [h1]
                      simp [attemptFails]
                  · intro hf
                    have := hf 2 (by omega)
                    rw [h2] at this
                    simp [attemptFails, hacc2] at this
                · have ht : verifyWithRetry attempts 2 =
                      ⟨exhaustedOutput (some r2.reasoning), [2000], 3⟩ := by
                    simp [verifyWithRetry, verifyWithRetryLoop, h0, hacc0,
                      h1, h2, hacc2]
                  rw [ht]
                  refine ⟨by simp, by simp, ?_,
                    by simp [h0, h1, isThrown], ?_⟩
                  · intro k hk
                    simp at hk
                    have hk01 : k = 0 ∨ k = 1 := by omega
                    rcases hk01 with hk0 | hk1
                    · subst hk0
                      rw [h0]
                      simp [attemptFails, hacc0]
                    · subst hk1
                      rw [h1]
                      simp [attemptFails]
                  · intro _
                    simp [finalMessage]
            | error m2 =>
                have ht : verifyWithRetry attempts 2 =
                    ⟨exhaustedOutput (some m2), [2000], 3⟩ := by
                  simp [verifyWithRetry, verifyWithRetryLoop, h0, hacc0,
                    h1, h2]
                rw [ht]
                refine ⟨by simp, by simp, ?_,
                  by simp [h0, h1, isThrown], ?_⟩
                · intro k hk
                  simp at hk
                  have hk01 : k = 0 ∨ k = 1 := by omega
                  rcases hk01 with hk0 | hk1
                  · subst hk0
                    rw [h0]
                    simp [attemptFails, hacc0]
                  · subst hk1
                    rw [h1]
                    simp [attemptFails]
                · intro _
                  simp [finalMessage]
  | error m0 =>
      cases h1 : attempts 1 with
      | ok r1 =>
          by_cases hacc1 : retryAccepts r1 = true
          · have ht : verifyWithRetry attempts 2 = ⟨r1, [1000], 2⟩ := by
              simp [verifyWithRetry, verifyWithRetryLoop, h0, h1, hacc1]
            rw [ht]
            refine ⟨by simp, by simp, ?_, by simp [h0, isThrown], ?_⟩
            · intro k hk
              simp at hk
              have hk0 : k = 0 := by omega
              subst hk0
              rw [h0]
              simp [attemptFails]
            · intro hf
              have := hf 1 (by omega)
              rw [h1] at this
              simp [attemptFails, hacc1] at this
          · cases h2 : attempts 2 with
            | ok r2 =>
                by_cases hacc2 : retryAccepts r2 = true
                · have ht : verifyWithRetry attempts 2 =
                      ⟨r2, [1000], 3⟩ := by
                    simp [verifyWithRetry, verifyWithRetryLoop, h0, h1,
                      hacc1, h2, hacc2]
                  rw [ht]
                  refine ⟨by simp, by simp, ?_,
                    by simp [h0, h1, isThrown], ?_⟩
                  · intro k hk
                    simp at hk
                    have hk01 : k = 0 ∨ k = 1 := by omega
                    rcases hk01 with hk0 | hk1
                    · subst hk0
                      rw [h0]
                      simp [attemptFails]
                    · subst hk1
                      rw [h1]
                      simp [attemptFails, hacc1]
                  · intro hf
                    have := hf 2 (by omega)
                    rw [h2] at this
                    simp [attemptFails, hacc2] at this
                · have ht : verifyWithRetry attempts 2 =
                      ⟨exhaustedOutput (some r2.reasoning), [1000], 3⟩ := by
                    simp [verifyWithRetry, verifyWithRetryLoop, h0, h1,
                      hacc1, h2, hacc2]
                  rw [ht]
                  refine ⟨by simp, by simp, ?_,
                    by simp [h0, h1, isThrown], ?_⟩
                  · intro k hk
                    simp at hk
                    have hk01 : k = 0 ∨ k = 1 := by omega
                    rcases hk01 with hk0 | hk1
                    · subst hk0
                      rw [h0]
                      simp [attemptFails]
                    · subst hk1
                      rw [h1]
                      simp [attemptFails, hacc1]
                  · intro _
                    simp [finalMessage]
            | error m2 =>
                have ht : verifyWithRetry attempts 2 =
                    ⟨exhaustedOutput (some m2), [1000], 3⟩ := by
                  simp [verifyWithRetry, verifyWithRetryLoop, h0, h1,
                    hacc1, h2]
                rw [ht]
                refine ⟨by simp, by simp, ?_,
                  by simp [h0, h1, isThrown], ?_⟩
                · intro k hk
                  simp at hk
                  have hk01 : k = 0 ∨ k = 1 := by omega
                  rcases hk01 with hk0 | hk1
                  · subst hk0
                    rw [h0]
                    simp [attemptFails]
                  · subst hk1
                    rw [h1]
                    simp [attemptFails, hacc1]
                · intro _
                  simp [finalMessage]
      | error m1 =>
          cases h2 : attempts 2 with
          | ok r2 =>
              by_cases hacc2 : retryAccepts r2 = true
              · have ht : verifyWithRetry attempts 2 =
                    ⟨r2, [1000, 2000], 3⟩ := by
                  simp [verifyWithRetry, verifyWithRetryLoop, h0, h1, h2,
                    hacc2]
                rw [ht]
                refine ⟨by simp, by simp, ?_,
                  by simp [h0, h1, isThrown], ?_⟩
                · intro k hk
                  simp at hk
                  have hk01 : k = 0 ∨ k = 1 := by omega
                  rcases hk01 with hk0 | hk1
                  · subst hk0
                    rw [h0]
                    simp [attemptFails]
                  · subst hk1
                    rw [h1]
                    simp [attemptFails]
                · intro hf
                  have := hf 2 (by omega)
                  rw [h2] at this
                  simp [attemptFails, hacc2] at this
              · have ht : verifyWithRetry attempts 2 =
                    ⟨exhaustedOutput (some r2.reasoning), [1000, 2000], 3⟩ := by
                  simp [verifyWithRetry, verifyWithRetryLoop, h0, h1, h2,
                    hacc2]
                rw [ht]
                refine ⟨by simp, by simp, ?_,
                  by simp [h0, h1, isThrown], ?_⟩
                · intro k hk
                  simp at hk
                  have hk01 : k = 0 ∨ k = 1 := by omega
                  rcases hk01 with hk0 | hk1
                  · subst hk0
                    rw [h0]
                    simp [attemptFails]
                  · subst hk1
                    rw [h1]
                    simp [attemptFails]
                · intro _
                  simp [finalMessage]
          | error m2 =>
              have ht : verifyWithRetry attempts 2 =
                  ⟨exhaustedOutput (some m2), [1000, 2000], 3⟩ := by
                simp [verifyWithRetry, verifyWithRetryLoop, h0, h1, h2]
              rw [ht]
              refine ⟨by simp, by simp, ?_,
                by simp [h0, h1, isThrown], ?_⟩
              · intro k hk
                simp at hk
                have hk01 : k = 0 ∨ k = 1 := by omega
                rcases hk01 with hk0 | hk1
                · subst hk0
                  rw [h0]
                  simp [attemptFails]
                · subst hk1
                  rw [h1]
                  simp [attemptFails]
              · intro _
                simp [finalMessage]

/-- C4, witness: a concrete oracle that throws once then succeeds — two
attempts, one 1s sleep. -/
theorem claim4_retry_amended_witness :
    (verifyWithRetry (fun k => if k = 0 then Except.error "boom"
        else Except.ok { confidence := .high, summary_of_sources := "ok",
                         reasoning := "fine" }) 2).attemptsMade ≤ 3 ∧
    1 ≤ (verifyWithRetry (fun k => if k = 0 then Except.error "boom"
        else Except.ok { confidence := .high, summary_of_sources := "ok",
                         reasoning := "fine" }) 2).attemptsMade :=
  ⟨(claim4_retry_amended (fun k => if k = 0 then Except.error "boom"
      else Except.ok { confidence := .high, summary_of_sources := "ok",
                       reasoning := "fine" })).1,
   (claim4_retry_amended (fun k => if k = 0 then Except.error "boom"
      else Except.ok { confidence := .high, summary_of_sources := "ok",
                       reasoning := "fine" })).2.1⟩

/-! ## Claim C6: `storeResult` keeps the latest result per key -/

/-- C6, confirmed: starting from a store whose result list for the
document has pairwise-distinct paragraph ids (the invariant `storeResult`
itself maintains), two `storeResult` calls for the same
`(doc_id, paragraph_id)` with different payloads leave exactly one result
for that key — the later payload. -/
theorem claim6_store_result_latest (s : Storage) (r1 r2 : VerificationResult)
    (now1 now2 : Nat) (hdoc : r1.doc_id = r2.doc_id)
    (_hpid : r1.paragraph_id = r2.paragraph_id)
    (hnd : ((getResults s r2.doc_id).map (fun x => x.paragraph_id)).Nodup) :
    (getResults (storeResult (storeResult s r1 now1).1 r2 now2).1
        r2.doc_id).filter (fun x => x.paragraph_id == r2.paragraph_id) =
      [r2] := by
  have h2 : getResults (storeResult (storeResult s r1 now1).1 r2 now2).1
      r2.doc_id =
      upsertResult (getResults (storeResult s r1 now1).1 r2.doc_id) r2 :=
    getResults_storeResult _ r2 now2
  have h1 : getResults (storeResult s r1 now1).1 r2.doc_id =
      upsertResult (getResults s r2.doc_id) r1 := by
    rw [← hdoc]
    exact getResults_storeResult s r1 now1
  rw [h2, h1]
  exact filter_upsertResult r2 (nodup_keys_upsertResult r1 hnd)

/-- C6, witness: two results for `("d", 1)` with different confidences;
the store ends with exactly the second. -/
theorem claim6_store_result_latest_witness :
    (getResults (storeResult (storeResult Storage.empty
        { doc_id := "d", paragraph_id := 1, confidence := .low,
          summary_of_sources := "first", reasoning := "r1",
          link_digests := [] } 1).1
        { doc_id := "d", paragraph_id := 1, confidence := .high,
          summary_of_sources := "second", reasoning := "r2",
          link_digests := [] } 2).1 "d").filter
      (fun x => x.paragraph_id == (1 : Int)) =
      [{ doc_id := "d", paragraph_id := 1, confidence := .high,
         summary_of_sources := "second", reasoning := "r2",
         link_digests := [] }] :=
  claim6_store_result_latest Storage.empty
    { doc_id := "d", paragraph_id := 1, confidence := .low,
      summary_of_sources := "first", reasoning := "r1", link_digests := [] }
    { doc_id := "d", paragraph_id := 1, confidence := .high,
      summary_of_sources := "second", reasoning := "r2", link_digests := [] }
    1 2 rfl rfl (by decide)

end TruAI
